import Mathlib

/-!
# Freewire: verification of the graph-to-batched-operation compiler and evaluator

Shallow embedding of `src/freewire/model.py`: the `Op` construction and forward
pass, and the `Model.construct` / `forward` / `compile` / `fit` orchestration.
Tensors are modelled as (nested) lists of rationals, tape indices as naturals.
The activation catalog (`activation_map`) and the weight-initialization catalog
(`initialization_map`) live in `model_utils.py`, which is not part of the given
sources; following the spec they are treated as pluggable lookup tables and are
passed as function parameters (`actMap`, `winit`).
-/

namespace Freewire

/-! ## Small list helpers (association lists, padding, scatter) -/

/-- Overwrite-or-append update of an association list, mirroring attribute
assignment `node.tape_index = i` keyed by object identity. -/
def setIdx : List (Nat × Nat) → Nat → Nat → List (Nat × Nat)
  | [], k, v => [(k, v)]
  | (k', v') :: rest, k, v =>
    if k' = k then (k, v) :: rest else (k', v') :: setIdx rest k v

/-- Read an association list; `0` for an absent key (tape indices of real nodes
are always ≥ 1, so `0` doubles as "unassigned"). -/
def getIdx : List (Nat × Nat) → Nat → Nat
  | [], _ => 0
  | (k', v') :: rest, k => if k' = k then v' else getIdx rest k

/-- First occurrence of `x` in a list (the inverse map of `torch.unique`). -/
def posOf (x : Nat) : List Nat → Nat
  | [] => 0
  | y :: l => if y = x then 0 else posOf x l + 1

/-- The distinct values of a list, first occurrences kept
(`torch.unique` returns the distinct values; the order is irrelevant because
the inverse indices below are taken with respect to this very list). -/
def uniqList : List Nat → List Nat
  | [] => []
  | x :: l => x :: (uniqList l).filter (fun y => y ≠ x)

/-- `row[indices] = values` : index assignment on one tape row
(later pairs overwrite earlier ones, as in torch). -/
def scatterList (row : List ℚ) (indices : List Nat) (values : List ℚ) : List ℚ :=
  ((indices.zip values)).foldl (fun r p => r.set p.1 p.2) row

/-! ## Data model: nodes and graphs (supplied by the external `graph` module) -/

/-- A neuron of the externally supplied graph.  `nid` stands for Python object
identity; `inputs` lists the identities of the input-supplying nodes, `opId`
is the grouping tag (`"any"` = no constraint), `activation` the identifier of
the activation function, `outputIndex` the declared output position. -/
structure GNode where
  nid : Nat
  inputs : List Nat
  opId : String
  activation : Nat
  outputIndex : Nat
deriving DecidableEq, Repr, Inhabited

/-- The graph handed to `Model.__init__`: ordered input / hidden / output
node lists.  Input nodes carry no structure the compiler uses beyond identity. -/
structure Graph where
  inputIds : List Nat
  hidden : List GNode
  outputs : List GNode
deriving DecidableEq, Repr

/-! ## Operation batch (`Op.__init__`) -/

/-- The tensors of one operation batch, as built by `Op.__init__`. -/
structure Op where
  nodes : List GNode
  inputIndices : List (List Nat)
  outputIndices : List Nat
  uniqueInputIndices : List Nat
  inverseInputIndices : List (List Nat)
  weights : List (List ℚ)
  bias : List ℚ
  activationIndexMap : List (Nat × List Nat)
deriving DecidableEq, Repr

/-- `activation_index_map[node.activation].append(i)` : insertion-ordered
dictionary from activation id to the batch-local row positions using it. -/
def insertAct : List (Nat × List Nat) → Nat → Nat → List (Nat × List Nat)
  | [], a, i => [(a, [i])]
  | (a', g) :: t, a, i =>
    if a' = a then (a, g ++ [i]) :: t else (a', g) :: insertAct t a i

/-- The `for i, node in enumerate(self.nodes)` loop building the map. -/
def buildActGroupsAux : Nat → List GNode → List (Nat × List Nat) → List (Nat × List Nat)
  | _, [], acc => acc
  | i, n :: rest, acc => buildActGroupsAux (i + 1) rest (insertAct acc n.activation i)

def buildActGroups (nodes : List GNode) : List (Nat × List Nat) :=
  buildActGroupsAux 0 nodes []

/-- Maximum row length, the padding width of `pad_sequence`. -/
def maxRowLen (rows : List (List Nat)) : Nat :=
  rows.foldr (fun r m => max r.length m) 0

/-- `Op.__init__`: build index tensors, padded/zeroed weights, zero bias and
the activation grouping from the nodes of one compilation round.  `winit`
models the pluggable entry of `initialization_map` (external catalog),
elementwise on the (row, column) position of the weight matrix. -/
def mkOp (winit : Nat → Nat → ℚ) (tapeIdx : List (Nat × Nat)) (nodes : List GNode) : Op :=
  let rows := nodes.map (fun n => n.inputs.map (getIdx tapeIdx))
  let w := maxRowLen rows
  let padded := rows.map (fun r => r ++ List.replicate (w - r.length) 0)
  let uniq := uniqList padded.flatten
  { nodes := nodes
    inputIndices := padded
    outputIndices := nodes.map (fun n => getIdx tapeIdx n.nid)
    uniqueInputIndices := uniq
    inverseInputIndices := padded.map (fun r => r.map (fun e => posOf e uniq))
    weights := (padded.enum).map (fun p =>
      (p.2.enum).map (fun q => if q.2 = 0 then 0 else winit p.1 q.1))
    bias := List.replicate nodes.length 0
    activationIndexMap := buildActGroups nodes }

/-! ## Op.forward -/

/-- Per-activation-group gather / activate / scatter loop of `Op.forward`
applied to the pre-activation row `x` of one sample. -/
def applyActGroups (actMap : Nat → ℚ → ℚ) (groups : List (Nat × List Nat))
    (x : List ℚ) : List ℚ :=
  groups.foldl (fun xv p =>
    scatterList xv p.2 (p.2.map (fun k => actMap p.1 (xv.getD k 0)))) x

/-- `Op.forward` on one tape row: gather the unique input values, redistribute
them through the inverse indices, multiply by the weights, sum, add the bias,
apply the per-row activations, and write the results at the output indices. -/
def Op.forwardRow (actMap : Nat → ℚ → ℚ) (op : Op) (row : List ℚ) : List ℚ :=
  let gathered := op.uniqueInputIndices.map (fun idx => row.getD idx 0)
  let x0 := op.inverseInputIndices.map (fun ir => ir.map (fun u => gathered.getD u 0))
  let x1 := (x0.zip op.weights).map (fun p => (p.1.zip p.2).map (fun q => q.1 * q.2))
  let x2 := x1.map List.sum
  let x3 := (x2.zip op.bias).map (fun p => p.1 + p.2)
  let x4 := applyActGroups actMap op.activationIndexMap x3
  scatterList row op.outputIndices x4

/-- `Op.forward`: the vectorized computation, one tape row per sample. -/
def Op.forward (actMap : Nat → ℚ → ℚ) (op : Op) (tape : List (List ℚ)) :
    List (List ℚ) :=
  tape.map (op.forwardRow actMap)

/-- The effect of calling the `forward` method on the op object and the tape:
the method mutates the tape only, the op's parameters are untouched. -/
def Op.forwardCall (actMap : Nat → ℚ → ℚ) (op : Op) (tape : List (List ℚ)) :
    Op × List (List ℚ) :=
  (op, op.forward actMap tape)

/-! ## Batch compiler (`Model.construct`) -/

/-- Compiler state: the `tape_index` / `assigned` attributes of the shared node
objects, the index counter `i`, the remaining-node list, the ops built so far
and the local variable `fails` (`none` = not yet bound; reading it then raises
`UnboundLocalError` in Python). -/
structure CState where
  tapeIdx : List (Nat × Nat)
  assigned : List Nat
  counter : Nat
  remaining : List GNode
  ops : List Op
  fails : Option (List String)
deriving DecidableEq, Repr

/-- `id_node_map[tag]`: the nodes of the *initial* remaining set sharing the
tag, in iteration order (the dict is built once, before the loop). -/
def idNodeMap (allNodes : List GNode) (tag : String) : List GNode :=
  allNodes.filter (fun n => n.opId = tag)

/-- The eligibility scan of one round: collect every remaining node whose
inputs are all assigned, giving it the next tape index.  Returns the candidate
round, the updated index map and the updated counter.  The `assigned` flags are
not touched here (they are only set when an `Op` is constructed). -/
def collectPhase (asg : List Nat) : List GNode → List (Nat × Nat) → Nat →
    List GNode × List (Nat × Nat) × Nat
  | [], idx, i => ([], idx, i)
  | n :: rest, idx, i =>
    if n.inputs.all (fun inp => inp ∈ asg) then
      let r := collectPhase asg rest (setIdx idx n.nid i) (i + 1)
      (n :: r.1, r.2.1, r.2.2)
    else collectPhase asg rest idx i

/-- The body of `for node in op_nodes: fails = []; ...` for one node: the
variable is re-bound to `[]` on every iteration, so only the node's own check
survives it.  The inner loop appends the tag once and breaks as soon as a
group member is missing from the candidate round. -/
def checkNode (allNodes opNodes : List GNode) (n : GNode) : List String :=
  if n.opId ≠ "any" then
    if (idNodeMap allNodes n.opId).any (fun m => decide (m ∉ opNodes)) then [n.opId]
    else []
  else []

/-- One iteration of the `while remaining_nodes != []` loop.  `none` models the
`UnboundLocalError` raised when `fails` is read before it was ever bound. -/
def step (winit : Nat → Nat → ℚ) (allNodes : List GNode) (s : CState) :
    Option CState :=
  let c := collectPhase s.assigned s.remaining s.tapeIdx s.counter
  let opNodes := c.1
  let idx1 := c.2.1
  let i1 := c.2.2
  let fails1 : Option (List String) :=
    match opNodes.getLast? with
    | some n => some (checkNode allNodes opNodes n)
    | none => s.fails
  match fails1 with
  | none => none
  | some fl =>
    let i2 := if fl ≠ [] then i1 - (opNodes.filter (fun n => n.opId ∈ fl)).length else i1
    let opNodes2 := if fl ≠ [] then opNodes.filter (fun n => decide (n.opId ∉ fl)) else opNodes
    let remaining2 := s.remaining.filter (fun n => decide (n ∉ opNodes2))
    some { tapeIdx := idx1
           assigned := if opNodes2 ≠ [] then s.assigned ++ opNodes2.map (·.nid) else s.assigned
           counter := i2
           remaining := remaining2
           ops := if opNodes2 ≠ [] then s.ops ++ [mkOp winit idx1 opNodes2] else s.ops
           fails := some fl }

/-- Result of driving the compiler loop with a fuel bound: the loop itself has
no termination guarantee, so non-termination shows up as `outOfFuel` at every
fuel value. -/
inductive RunResult
  | done (s : CState)
  | nameErr (s : CState)
  | outOfFuel (s : CState)
deriving DecidableEq, Repr

def RunResult.state : RunResult → CState
  | .done s => s
  | .nameErr s => s
  | .outOfFuel s => s

def RunResult.isDone : RunResult → Bool
  | .done _ => true
  | _ => false

def runLoop (winit : Nat → Nat → ℚ) (allNodes : List GNode) :
    Nat → CState → RunResult
  | 0, s => .outOfFuel s
  | fuel + 1, s =>
    if s.remaining = [] then .done s
    else
      match step winit allNodes s with
      | none => .nameErr s
      | some s' => runLoop winit allNodes fuel s'

/-- `i = 1; for input_node in self.inputs: tape_index = i; assigned; i += 1`. -/
def assignInputs : List Nat → List (Nat × Nat) → Nat → List (Nat × Nat) × Nat
  | [], idx, i => (idx, i)
  | id :: rest, idx, i => assignInputs rest (setIdx idx id i) (i + 1)

/-- Compiler state at the top of the `while` loop. -/
def initState (g : Graph) : CState :=
  let a := assignInputs g.inputIds [] 1
  { tapeIdx := a.1
    assigned := g.inputIds
    counter := a.2
    remaining := g.hidden ++ g.outputs
    ops := []
    fails := none }

/-- Run `Model.construct`'s indexing loop on a graph with the given fuel. -/
def constructRun (g : Graph) (winit : Nat → Nat → ℚ) (fuel : Nat) : RunResult :=
  runLoop winit (g.hidden ++ g.outputs) fuel (initState g)

/-! ## Model -/

inductive OptKind
  | adam
  | sgd
deriving DecidableEq, Repr

inductive LossKind
  | mse
  | crossentropy
deriving DecidableEq, Repr

structure Model where
  inputSize : Nat
  outputSize : Nat
  tapeSize : Nat
  ops : List Op
  outputIndices : List Nat
  optimizer : Option OptKind
  lossFunction : Option LossKind
deriving DecidableEq, Repr

/-- Stable sort of the output nodes by declared `output_index`
(Python's `sorted` is stable; insertion sort below is as well). -/
def insertByOutputIndex (n : GNode) : List GNode → List GNode
  | [] => [n]
  | m :: l => if n.outputIndex ≤ m.outputIndex then n :: m :: l
              else m :: insertByOutputIndex n l

def sortOutputs : List GNode → List GNode
  | [] => []
  | n :: l => insertByOutputIndex n (sortOutputs l)

/-- Assemble the model from the graph and the final compiler state: sizes,
compiled ops, and output-extraction indices (user output order, not
tape-assignment order).  `optimizer` / `loss_function` start unset. -/
def mkModel (g : Graph) (s : CState) : Model :=
  { inputSize := g.inputIds.length
    outputSize := g.outputs.length
    tapeSize := g.inputIds.length + g.hidden.length + g.outputs.length + 1
    ops := s.ops
    outputIndices := (sortOutputs g.outputs).map (fun n => getIdx s.tapeIdx n.nid)
    optimizer := none
    lossFunction := none }

/-- `Model(graph, ...)` up to and including `construct`, when the compiler
loop finishes within the fuel bound. -/
def constructModel (g : Graph) (winit : Nat → Nat → ℚ) (fuel : Nat) : Option Model :=
  match constructRun g winit fuel with
  | .done s => some (mkModel g s)
  | _ => none

/-! ## Model.forward -/

/-- A forward-pass input of arbitrary rank: the code accepts 2-D batches,
promotes a 1-D sample to a batch of one, and asserts on any other rank.
Payloads of rank 0 and rank ≥ 3 are irrelevant to the rank check; `rankHigher r`
stands for a tensor of rank `r + 3`. -/
inductive PyInput
  | rank0 (v : ℚ)
  | rank1 (v : List ℚ)
  | rank2 (rows : List (List ℚ))
  | rankHigher (r : Nat)
deriving DecidableEq, Repr

/-- A zero-filled tape row with the sample written at positions
`1 .. input_size` (`tape[:, 1:input_size+1] = x`). -/
def initRow (inputSize tapeSize : Nat) (xr : List ℚ) : List ℚ :=
  ((List.range inputSize).zip xr).foldl (fun t p => t.set (p.1 + 1) p.2)
    (List.replicate tapeSize 0)

/-- `for op in self.ops: tape = op.forward(tape)`. -/
def runOps (actMap : Nat → ℚ → ℚ) (ops : List Op) (tape : List (List ℚ)) :
    List (List ℚ) :=
  ops.foldl (fun t op => op.forward actMap t) tape

/-- The 2-D body of `Model.forward`: seed the tape, thread it through the ops
in compiled order, extract the output positions. -/
def runForward (actMap : Nat → ℚ → ℚ) (m : Model) (xs : List (List ℚ)) :
    List (List ℚ) :=
  let tape0 := xs.map (initRow m.inputSize m.tapeSize)
  let tape1 := runOps actMap m.ops tape0
  tape1.map (fun row => m.outputIndices.map (fun oi => row.getD oi 0))

/-- `Model.forward`: rank dispatch, then the 2-D body.  The assertion message
is the one in the source. -/
def Model.forward (actMap : Nat → ℚ → ℚ) (m : Model) (x : PyInput) :
    Except String (List (List ℚ)) :=
  match x with
  | .rank1 v => .ok (runForward actMap m [v])
  | .rank2 rows => .ok (runForward actMap m rows)
  | _ => .error "Input must be flattened batches (2D)"

/-! ## Model.compile and Model.fit -/

/-- `Model.compile`: recognized optimizer names set the optimizer, recognized
loss names set the loss function; anything else falls through silently. -/
def Model.compile (m : Model) (optimizer lossFunction : String) : Model :=
  let m1 :=
    if optimizer = "adam" then { m with optimizer := some OptKind.adam }
    else if optimizer = "sgd" then { m with optimizer := some OptKind.sgd }
    else m
  if lossFunction = "mse" then { m1 with lossFunction := some LossKind.mse }
  else if lossFunction = "crossentropy" then { m1 with lossFunction := some LossKind.crossentropy }
  else m1

/-- `Model.fit`: the configuration check and the input-shape assertions come
first; the epoch/minibatch optimization loop itself drives the external
optimizer and autograd engine and is abstracted as `train` (out of the core
per the spec).  The result pairs the raised error (if any) with the model
state after the call. -/
def Model.fit (train : Model → List (List ℚ) → List (List ℚ) → Nat → Nat → Model)
    (m : Model) (X y : List (List ℚ)) (epochs batchSize : Nat) :
    Option String × Model :=
  match m.optimizer with
  | none => (some "Compile model first before calling fit()", m)
  | some _ =>
    if (X.headD []).length ≠ m.inputSize then
      (some "Input size given doesn't match this network's input size", m)
    else (none, train m X y epochs batchSize)

/-! ## Concrete graphs exercising the compiler

`zeroInit` is the trivial initialization strategy (weights all 0); the loop's
control flow never depends on the weight values. -/

def zeroInit : Nat → Nat → ℚ := fun _ _ => 0

/-- Node shorthand. -/
def gnode (nid : Nat) (inputs : List Nat) (opId : String) : GNode :=
  { nid := nid, inputs := inputs, opId := opId, activation := 0, outputIndex := 0 }

/-- Acyclic graph with one grouping tag `"g"` on nodes 2, 3, 5, 6; node 1 and
node 6 consume node 4.  Tag `"g"` is incomplete in round one (node 6 is not yet
eligible), so nodes 2, 3, 5 are rolled back while node 4, assigned between
them, keeps its index — the freed indices are reused in round two. -/
def bigG : Graph :=
  { inputIds := [0]
    hidden := [gnode 1 [4] "any", gnode 2 [0] "g", gnode 3 [0] "g",
               gnode 4 [0] "any", gnode 5 [0] "g", gnode 6 [4] "g"]
    outputs := [gnode 7 [1] "any"] }

/-- Acyclic graph where tag `"g"` = nodes 1 and 3, with node 3 fed by the
untagged node 2.  In round one the last candidate checked is untagged, so the
incomplete tag `"g"` is not deferred and node 1 is finalized without node 3. -/
def splitG : Graph :=
  { inputIds := [0]
    hidden := [gnode 1 [0] "g", gnode 2 [0] "any", gnode 3 [2] "g",
               gnode 4 [2] "any"]
    outputs := [] }

/-- Acyclic graph with satisfiable grouping: tag `"g"` = nodes 1 and 3, node 3
fed by the untagged node 2.  A valid schedule finalizes node 2 first and then
nodes 1 and 3 together; the compiler instead finalizes node 1 in round one and
then defers node 3 forever, because node 1 is never again in a candidate round. -/
def smallG : Graph :=
  { inputIds := [0]
    hidden := [gnode 1 [0] "g", gnode 2 [0] "any", gnode 3 [2] "g"]
    outputs := [] }

/-- Identity activation catalog entry (concrete stand-in for `activation_map`
lookups in concrete evaluations). -/
def idAct : Nat → ℚ → ℚ := fun _ v => v

/-- A training driver that leaves the model unchanged (stand-in for the
external optimizer loop in concrete evaluations). -/
def trivialTrain : Model → List (List ℚ) → List (List ℚ) → Nat → Nat → Model :=
  fun m _ _ _ _ => m

/-- A small already-constructed model used for concrete evaluations of
`compile` and `fit`. -/
def modelA : Model :=
  { inputSize := 1, outputSize := 1, tapeSize := 3, ops := [],
    outputIndices := [2], optimizer := none, lossFunction := none }

/-- The spec's hand example: two inputs, no hidden nodes, one output node
taking both inputs. -/
def pairG : Graph :=
  { inputIds := [0, 1]
    hidden := []
    outputs := [gnode 2 [0, 1] "any"] }

/-- Fixed weights `[0.5, -0.5]` of the spec's hand example, as an
initialization-strategy entry. -/
def halfInit : Nat → Nat → ℚ := fun _ j => if j = 0 then 1 / 2 else -(1 / 2)

/-- The unpadded index rows of a node list: one row of input tape indices per
node (the tensors in `input_indices` before `pad_sequence`). -/
def nodeRows (tapeIdx : List (Nat × Nat)) (nodes : List GNode) : List (List Nat) :=
  nodes.map (fun n => n.inputs.map (getIdx tapeIdx))

/-- Invariant of the compiler loop: the index counter stays at least 1, every
assigned tape index is at least 1, and every compiled op's output indices are
at least 1 (index 0 stays reserved). -/
def CInv (s : CState) : Prop :=
  1 ≤ s.counter ∧ (∀ p ∈ s.tapeIdx, 1 ≤ p.2) ∧
    (∀ op ∈ s.ops, ∀ o ∈ op.outputIndices, 1 ≤ o)

/-- What the activation grouping of an op must satisfy: each listed row
position is in range and carries the group's activation id, every row position
is listed, keys are distinct and no group repeats a position. -/
structure GroupsSpec (actOf : Nat → Nat) (bound : Nat)
    (groups : List (Nat × List Nat)) : Prop where
  sound : ∀ p ∈ groups, ∀ k ∈ p.2, k < bound ∧ actOf k = p.1
  cover : ∀ k, k < bound → ∃ p ∈ groups, k ∈ p.2
  keysNodup : (groups.map Prod.fst).Nodup
  groupsNodup : ∀ p ∈ groups, p.2.Nodup

/-- The gather stage of `Op.forward` with the unique/inverse indirection
composed away: each padded index row read directly from the tape row. -/
def gatherDirect (op : Op) (row : List ℚ) : List (List ℚ) :=
  op.inputIndices.map (fun r => r.map (fun t => row.getD t 0))

/-- The pre-activation stage of `Op.forward` on one sample: weighted sums of
the directly gathered values plus the bias. -/
def preActList (op : Op) (row : List ℚ) : List ℚ :=
  ((((gatherDirect op row).zip op.weights).map
      (fun p => (p.1.zip p.2).map (fun q => q.1 * q.2))).map List.sum).zip op.bias
    |>.map (fun p => p.1 + p.2)

/-- The pre-activation value of row `k`: sum over the input slots of
(tape value at the slot's index) * (slot weight), plus the row bias. -/
def nodePre (op : Op) (row : List ℚ) (k : Nat) : ℚ :=
  ((((op.inputIndices.getD k []).map (fun t => row.getD t 0)).zip
      (op.weights.getD k [])).map (fun q => q.1 * q.2)).sum + op.bias.getD k 0

/-- The closed form of one output value of a zero-hidden-node model: the
node's activation applied to the weighted sum of the raw inputs plus the
(zero-initialized) bias. -/
def specOutputValue (actMap : Nat → ℚ → ℚ) (winit : Nat → Nat → ℚ)
    (inputIds : List Nat) (nd : GNode) (k : Nat) (xr : List ℚ) : ℚ :=
  actMap nd.activation
    ((((nd.inputs.map (fun inp => xr.getD (posOf inp inputIds) 0)).zip
        ((List.range nd.inputs.length).map (fun j => winit k j))).map
      (fun q => q.1 * q.2)).sum + 0)

/-! ## Basic lemmas about the list helpers -/

lemma getD_out_of_bounds {α} (l : List α) (k : Nat) (d : α) (h : l.length ≤ k) :
    l.getD k d = d := by
  rw [List.getD_eq_getElem?_getD, List.getElem?_eq_none h]
  rfl

lemma getD_set_ne {α} (l : List α) (i j : Nat) (v d : α) (h : j ≠ i) :
    (l.set i v).getD j d = l.getD j d := by
  rw [List.getD_eq_getElem?_getD, List.getElem?_set_ne (Ne.symm h),
    ← List.getD_eq_getElem?_getD]

lemma getD_set_self {α} (l : List α) (i : Nat) (v d : α) (h : i < l.length) :
    (l.set i v).getD i d = v := by
  rw [List.getD_eq_getElem _ _ (by simpa using h), List.getElem_set_self]

lemma scatterList_length (is : List Nat) (vs : List ℚ) (row : List ℚ) :
    (scatterList row is vs).length = row.length := by
  induction is generalizing vs row with
  | nil => simp [scatterList]
  | cons i it ih =>
    cases vs with
    | nil => simp [scatterList]
    | cons v vt =>
      show (scatterList (row.set i v) it vt).length = _
      rw [ih vt (row.set i v), List.length_set]

lemma scatterList_frame (is : List Nat) (vs : List ℚ) (row : List ℚ) (j : Nat)
    (h : j ∉ is) : (scatterList row is vs).getD j 0 = row.getD j 0 := by
  induction is generalizing vs row with
  | nil => simp [scatterList]
  | cons i it ih =>
    cases vs with
    | nil => simp [scatterList]
    | cons v vt =>
      have hj : j ∉ it := fun hm => h (List.mem_cons_of_mem _ hm)
      have hne : j ≠ i := fun he => h (by simp [he])
      show (scatterList (row.set i v) it vt).getD j 0 = _
      rw [ih vt (row.set i v) hj, getD_set_ne _ _ _ _ _ hne]

lemma scatterList_getD_nodup (is : List Nat) (vs : List ℚ) (row : List ℚ)
    (k : Nat) (hnd : is.Nodup) (hk : k < is.length) (hlen : vs.length = is.length)
    (hb : is.getD k 0 < row.length) :
    (scatterList row is vs).getD (is.getD k 0) 0 = vs.getD k 0 := by
  induction is generalizing vs row k with
  | nil => simp at hk
  | cons i it ih =>
    cases vs with
    | nil => simp at hlen
    | cons v vt =>
      have hstep : scatterList row (i :: it) (v :: vt) = scatterList (row.set i v) it vt := rfl
      cases k with
      | zero =>
        have hni : i ∉ it := (List.nodup_cons.mp hnd).1
        rw [hstep]
        show (scatterList (row.set i v) it vt).getD i 0 = v
        rw [scatterList_frame it vt _ i hni, getD_set_self _ _ _ _ (by simpa using hb)]
      | succ k' =>
        rw [hstep]
        show (scatterList (row.set i v) it vt).getD (it.getD k' 0) 0 = vt.getD k' 0
        exact ih vt (row.set i v) k' (List.nodup_cons.mp hnd).2
          (by simpa using hk) (by simpa using hlen)
          (by rw [List.length_set]; simpa using hb)


/-! ## Frame property of Op.forward -/

lemma forwardRow_eq_scatter (actMap : Nat → ℚ → ℚ) (op : Op) (row : List ℚ) :
    ∃ vals, Op.forwardRow actMap op row = scatterList row op.outputIndices vals :=
  ⟨_, rfl⟩

lemma forward_getD_frame (actMap : Nat → ℚ → ℚ) (op : Op) (tape : List (List ℚ))
    (b j : Nat) (h : j ∉ op.outputIndices) :
    ((Op.forward actMap op tape).getD b []).getD j 0 = (tape.getD b []).getD j 0 := by
  induction tape generalizing b with
  | nil => simp [Op.forward]
  | cons r t ih =>
    cases b with
    | zero =>
      show (Op.forwardRow actMap op r).getD j 0 = r.getD j 0
      obtain ⟨vals, hv⟩ := forwardRow_eq_scatter actMap op r
      rw [hv, scatterList_frame _ _ _ _ h]
    | succ b' => exact ih b'

lemma forward_length (actMap : Nat → ℚ → ℚ) (op : Op) (tape : List (List ℚ)) :
    (Op.forward actMap op tape).length = tape.length := by
  simp [Op.forward]

lemma forwardRow_length (actMap : Nat → ℚ → ℚ) (op : Op) (row : List ℚ) :
    (Op.forwardRow actMap op row).length = row.length := by
  obtain ⟨vals, hv⟩ := forwardRow_eq_scatter actMap op row
  rw [hv, scatterList_length]

/-! ## Padded weights (Op.__init__ zeroing) -/

lemma getD_map_lt {α β : Type} (f : α → β) (l : List α) (k : Nat) (d : β)
    (h : k < l.length) : (l.map f).getD k d = f l[k] := by
  rw [List.getD_eq_getElem _ _ (by simpa using h), List.getElem_map]

lemma getD_replicate_self {α : Type} (n m : Nat) (a : α) :
    (List.replicate n a).getD m a = a := by
  rcases Nat.lt_or_ge m n with hlt | hge
  · rw [List.getD_eq_getElem _ _ (by simpa using hlt), List.getElem_replicate]
  · exact getD_out_of_bounds _ _ _ (by simpa using hge)

lemma mkOp_inputIndices_eq (winit : Nat → Nat → ℚ) (tapeIdx : List (Nat × Nat))
    (nodes : List GNode) :
    (mkOp winit tapeIdx nodes).inputIndices =
      (nodeRows tapeIdx nodes).map
        (fun r => r ++ List.replicate (maxRowLen (nodeRows tapeIdx nodes) - r.length) 0) := rfl

lemma mkOp_weights_eq (winit : Nat → Nat → ℚ) (tapeIdx : List (Nat × Nat))
    (nodes : List GNode) :
    (mkOp winit tapeIdx nodes).weights =
      ((mkOp winit tapeIdx nodes).inputIndices.enum).map
        (fun p => (p.2.enum).map (fun q => if q.2 = 0 then 0 else winit p.1 q.1)) := rfl

lemma mkOp_inputIndices_length (winit : Nat → Nat → ℚ) (tapeIdx : List (Nat × Nat))
    (nodes : List GNode) :
    (mkOp winit tapeIdx nodes).inputIndices.length = nodes.length := by
  rw [mkOp_inputIndices_eq, List.length_map]
  simp [nodeRows]

lemma mkOp_padded_getD_zero (winit : Nat → Nat → ℚ) (tapeIdx : List (Nat × Nat))
    (nodes : List GNode) (k j : Nat)
    (h : ((nodes.getD k default).inputs).length ≤ j) :
    ((mkOp winit tapeIdx nodes).inputIndices.getD k []).getD j 0 = 0 := by
  by_cases hk : k < nodes.length
  · have hkr : k < (nodeRows tapeIdx nodes).length := by simp [nodeRows, hk]
    have hrow : (mkOp winit tapeIdx nodes).inputIndices.getD k [] =
        (nodeRows tapeIdx nodes)[k] ++
          List.replicate
            (maxRowLen (nodeRows tapeIdx nodes) - ((nodeRows tapeIdx nodes)[k]).length) 0 := by
      rw [mkOp_inputIndices_eq, getD_map_lt _ _ _ _ hkr]
    have hget : (nodeRows tapeIdx nodes)[k] =
        ((nodes.getD k default).inputs).map (getIdx tapeIdx) := by
      show (nodes.map (fun n => n.inputs.map (getIdx tapeIdx)))[k] = _
      rw [List.getElem_map, List.getD_eq_getElem _ _ hk]
    rw [hrow, hget, List.getD_append_right _ _ _ _ (by simpa using h),
      getD_replicate_self]
  · have h0 : (mkOp winit tapeIdx nodes).inputIndices.getD k [] = [] :=
      getD_out_of_bounds _ _ _
        (by rw [mkOp_inputIndices_length]; exact Nat.le_of_not_lt hk)
    rw [h0]
    rfl

lemma mkOp_weights_getD_zero (winit : Nat → Nat → ℚ) (tapeIdx : List (Nat × Nat))
    (nodes : List GNode) (k j : Nat)
    (h : ((mkOp winit tapeIdx nodes).inputIndices.getD k []).getD j 0 = 0) :
    ((mkOp winit tapeIdx nodes).weights.getD k []).getD j 0 = 0 := by
  by_cases hk : k < (mkOp winit tapeIdx nodes).inputIndices.length
  · have hke : k < (mkOp winit tapeIdx nodes).inputIndices.enum.length := by
      simpa [List.enum_length] using hk
    have hrow : (mkOp winit tapeIdx nodes).weights.getD k [] =
        ((((mkOp winit tapeIdx nodes).inputIndices)[k]).enum).map
          (fun q => if q.2 = 0 then 0 else winit k q.1) := by
      rw [mkOp_weights_eq, getD_map_lt _ _ _ _ hke, List.getElem_enum]
    rw [hrow]
    by_cases hj : j < (((mkOp winit tapeIdx nodes).inputIndices)[k]).length
    · have hje : j < ((((mkOp winit tapeIdx nodes).inputIndices)[k]).enum).length := by
        simpa [List.enum_length] using hj
      rw [getD_map_lt _ _ _ _ hje, List.getElem_enum]
      have hz : (((mkOp winit tapeIdx nodes).inputIndices)[k])[j] = 0 := by
        rw [List.getD_eq_getElem _ _ hk, List.getD_eq_getElem _ _ hj] at h
        exact h
      simp [hz]
    · exact getD_out_of_bounds _ _ _
        (by simpa [List.enum_length] using Nat.le_of_not_lt hj)
  · have h0 : (mkOp winit tapeIdx nodes).weights.getD k [] = [] :=
      getD_out_of_bounds _ _ _ (by
        rw [mkOp_weights_eq, List.length_map, List.enum_length]
        exact Nat.le_of_not_lt hk)
    rw [h0]
    rfl

/-! ## Non-termination of the compiler loop on a fixpoint state -/

lemma runLoop_fix (winit : Nat → Nat → ℚ) (allN : List GNode) (s : CState)
    (hfix : step winit allN s = some s) (hne : s.remaining ≠ []) :
    ∀ fuel, runLoop winit allN fuel s = RunResult.outOfFuel s := by
  intro fuel
  induction fuel with
  | zero => rfl
  | succ n ih =>
    show runLoop winit allN (n + 1) s = _
    simp only [runLoop]
    rw [if_neg hne, hfix]
    exact ih

lemma smallG_mid_fix (winit : Nat → Nat → ℚ) :
    step winit (smallG.hidden ++ smallG.outputs) ((constructRun smallG winit 2).state) =
      some ((constructRun smallG winit 2).state) := rfl

lemma smallG_mid_remaining (winit : Nat → Nat → ℚ) :
    ((constructRun smallG winit 2).state).remaining = [gnode 3 [2] "g"] := rfl

/-! ## fit / compile configuration behaviour -/

lemma fit_unconfigured
    (train : Model → List (List ℚ) → List (List ℚ) → Nat → Nat → Model)
    (m : Model) (X y : List (List ℚ)) (epochs batchSize : Nat)
    (h : m.optimizer = none) :
    Model.fit train m X y epochs batchSize =
      (some "Compile model first before calling fit()", m) := by
  unfold Model.fit
  rw [h]

lemma compile_unknown_optimizer (m : Model) (opt loss : String)
    (h1 : opt ≠ "adam") (h2 : opt ≠ "sgd") :
    (Model.compile m opt loss).optimizer = m.optimizer := by
  unfold Model.compile
  rw [if_neg h1, if_neg h2]
  split_ifs <;> rfl

/-! ## Tape indices are always at least 1 (index 0 reserved) -/

lemma getIdx_setIdx_self (m : List (Nat × Nat)) (k v : Nat) :
    getIdx (setIdx m k v) k = v := by
  induction m with
  | nil => simp [setIdx, getIdx]
  | cons p rest ih =>
    by_cases h : p.1 = k
    · simp [setIdx, getIdx, h]
    · simp [setIdx, getIdx, h, ih]

lemma getIdx_setIdx_ne (m : List (Nat × Nat)) (k v q : Nat) (h : q ≠ k) :
    getIdx (setIdx m k v) q = getIdx m q := by
  have hk : ¬k = q := fun he => h he.symm
  induction m with
  | nil => simp [setIdx, getIdx, hk]
  | cons p rest ih =>
    obtain ⟨a, b⟩ := p
    by_cases hp : a = k
    · simp [setIdx, getIdx, hp, hk]
    · by_cases hq : a = q
      · simp [setIdx, getIdx, hp, hq, h]
      · simp [setIdx, getIdx, hp, hq, ih]

lemma setIdx_mem (m : List (Nat × Nat)) (k v : Nat) (p : Nat × Nat)
    (hp : p ∈ setIdx m k v) : p ∈ m ∨ p = (k, v) := by
  induction m with
  | nil => simpa [setIdx] using hp
  | cons q rest ih =>
    by_cases h : q.1 = k
    · rw [show setIdx (q :: rest) k v = (k, v) :: rest by simp [setIdx, h]] at hp
      rcases List.mem_cons.mp hp with h1 | h1
      · exact Or.inr h1
      · exact Or.inl (List.mem_cons_of_mem _ h1)
    · rw [show setIdx (q :: rest) k v = q :: setIdx rest k v by simp [setIdx, h]] at hp
      rcases List.mem_cons.mp hp with h1 | h1
      · exact Or.inl (by simp [h1])
      · rcases ih h1 with h2 | h2
        · exact Or.inl (List.mem_cons_of_mem _ h2)
        · exact Or.inr h2

lemma assignInputs_counter (ids : List Nat) :
    ∀ (idx : List (Nat × Nat)) (i : Nat),
      (assignInputs ids idx i).2 = i + ids.length := by
  induction ids with
  | nil => intro idx i; simp [assignInputs]
  | cons a rest ih =>
    intro idx i
    show (assignInputs rest (setIdx idx a i) (i + 1)).2 = _
    rw [ih]
    simp
    omega

lemma assignInputs_mem (ids : List Nat) :
    ∀ (idx : List (Nat × Nat)) (i : Nat) (p : Nat × Nat),
      p ∈ (assignInputs ids idx i).1 → p ∈ idx ∨ i ≤ p.2 := by
  induction ids with
  | nil => intro idx i p hp; exact Or.inl hp
  | cons a rest ih =>
    intro idx i p hp
    rcases ih (setIdx idx a i) (i + 1) p hp with h1 | h1
    · rcases setIdx_mem idx a i p h1 with h2 | h2
      · exact Or.inl h2
      · exact Or.inr (by rw [h2])
    · exact Or.inr (Nat.le_of_succ_le h1)

lemma collectPhase_counter (asg : List Nat) (rem : List GNode) :
    ∀ (idx : List (Nat × Nat)) (i : Nat),
      (collectPhase asg rem idx i).2.2 = i + (collectPhase asg rem idx i).1.length := by
  induction rem with
  | nil => intro idx i; simp [collectPhase]
  | cons n rest ih =>
    intro idx i
    by_cases h : n.inputs.all (fun inp => inp ∈ asg)
    · rw [show collectPhase asg (n :: rest) idx i =
        (n :: (collectPhase asg rest (setIdx idx n.nid i) (i + 1)).1,
         (collectPhase asg rest (setIdx idx n.nid i) (i + 1)).2.1,
         (collectPhase asg rest (setIdx idx n.nid i) (i + 1)).2.2) by
          simp [collectPhase, h]]
      rw [ih]
      simp
      omega
    · rw [show collectPhase asg (n :: rest) idx i = collectPhase asg rest idx i by
        simp [collectPhase, h]]
      exact ih idx i

lemma collectPhase_idx_mem (asg : List Nat) (rem : List GNode) :
    ∀ (idx : List (Nat × Nat)) (i : Nat) (p : Nat × Nat),
      p ∈ (collectPhase asg rem idx i).2.1 → p ∈ idx ∨ i ≤ p.2 := by
  induction rem with
  | nil => intro idx i p hp; exact Or.inl hp
  | cons n rest ih =>
    intro idx i p hp
    by_cases h : n.inputs.all (fun inp => inp ∈ asg)
    · rw [show (collectPhase asg (n :: rest) idx i).2.1 =
        (collectPhase asg rest (setIdx idx n.nid i) (i + 1)).2.1 by
          simp [collectPhase, h]] at hp
      rcases ih (setIdx idx n.nid i) (i + 1) p hp with h1 | h1
      · rcases setIdx_mem idx n.nid i p h1 with h2 | h2
        · exact Or.inl h2
        · exact Or.inr (by rw [h2])
      · exact Or.inr (Nat.le_of_succ_le h1)
    · rw [show (collectPhase asg (n :: rest) idx i).2.1 =
        (collectPhase asg rest idx i).2.1 by simp [collectPhase, h]] at hp
      exact ih idx i p hp

lemma collectPhase_getIdx_cases (asg : List Nat) (rem : List GNode) :
    ∀ (idx : List (Nat × Nat)) (i : Nat) (key : Nat),
      getIdx (collectPhase asg rem idx i).2.1 key = getIdx idx key ∨
        i ≤ getIdx (collectPhase asg rem idx i).2.1 key := by
  induction rem with
  | nil => intro idx i key; exact Or.inl rfl
  | cons n rest ih =>
    intro idx i key
    by_cases h : n.inputs.all (fun inp => inp ∈ asg)
    · rw [show (collectPhase asg (n :: rest) idx i).2.1 =
        (collectPhase asg rest (setIdx idx n.nid i) (i + 1)).2.1 by
          simp [collectPhase, h]]
      rcases ih (setIdx idx n.nid i) (i + 1) key with h1 | h1
      · by_cases hk : key = n.nid
        · rw [h1, hk, getIdx_setIdx_self]
          exact Or.inr (Nat.le_refl i)
        · rw [h1, getIdx_setIdx_ne _ _ _ _ hk]
          exact Or.inl rfl
      · exact Or.inr (Nat.le_of_succ_le h1)
    · rw [show (collectPhase asg (n :: rest) idx i).2.1 =
        (collectPhase asg rest idx i).2.1 by simp [collectPhase, h]]
      exact ih idx i key

lemma collectPhase_opNode_getIdx (asg : List Nat) (rem : List GNode) :
    ∀ (idx : List (Nat × Nat)) (i : Nat) (n : GNode),
      n ∈ (collectPhase asg rem idx i).1 →
        i ≤ getIdx (collectPhase asg rem idx i).2.1 n.nid := by
  induction rem with
  | nil => intro idx i n hn; simp [collectPhase] at hn
  | cons m rest ih =>
    intro idx i n hn
    by_cases h : m.inputs.all (fun inp => inp ∈ asg)
    · rw [show collectPhase asg (m :: rest) idx i =
        (m :: (collectPhase asg rest (setIdx idx m.nid i) (i + 1)).1,
         (collectPhase asg rest (setIdx idx m.nid i) (i + 1)).2.1,
         (collectPhase asg rest (setIdx idx m.nid i) (i + 1)).2.2) by
          simp [collectPhase, h]] at hn ⊢
      rcases List.mem_cons.mp hn with h1 | h1
      · subst h1
        rcases collectPhase_getIdx_cases asg rest (setIdx idx n.nid i) (i + 1) n.nid with h2 | h2
        · rw [h2, getIdx_setIdx_self]
        · exact Nat.le_of_succ_le h2
      · exact Nat.le_of_succ_le (ih (setIdx idx m.nid i) (i + 1) n h1)
    · rw [show collectPhase asg (m :: rest) idx i = collectPhase asg rest idx i by
        simp [collectPhase, h]] at hn ⊢
      exact ih idx i n hn

lemma mkOp_outputIndices_eq (winit : Nat → Nat → ℚ) (tapeIdx : List (Nat × Nat))
    (nodes : List GNode) :
    (mkOp winit tapeIdx nodes).outputIndices =
      nodes.map (fun nd => getIdx tapeIdx nd.nid) := rfl

lemma step_inv (winit : Nat → Nat → ℚ) (allN : List GNode) (s s' : CState)
    (h : step winit allN s = some s') (hinv : CInv s) : CInv s' := by
  obtain ⟨h1, h2, h3⟩ := hinv
  simp only [step] at h
  split at h
  · exact absurd h (by simp)
  · rename_i fl heq
    rw [Option.some_inj] at h
    subst h
    have hcnt := collectPhase_counter s.assigned s.remaining s.tapeIdx s.counter
    refine ⟨?_, ?_, ?_⟩
    · show 1 ≤ (if fl ≠ [] then
          (collectPhase s.assigned s.remaining s.tapeIdx s.counter).2.2 -
            ((collectPhase s.assigned s.remaining s.tapeIdx s.counter).1.filter
              (fun n => n.opId ∈ fl)).length
          else (collectPhase s.assigned s.remaining s.tapeIdx s.counter).2.2)
      have hfle := List.length_filter_le
        (fun n => n.opId ∈ fl) (collectPhase s.assigned s.remaining s.tapeIdx s.counter).1
      split <;> omega
    · intro p hp
      rcases collectPhase_idx_mem s.assigned s.remaining s.tapeIdx s.counter p hp with hm | hm
      · exact h2 p hm
      · omega
    · show ∀ op ∈ (if (if fl ≠ [] then
          (collectPhase s.assigned s.remaining s.tapeIdx s.counter).1.filter
            (fun n => decide (n.opId ∉ fl))
          else (collectPhase s.assigned s.remaining s.tapeIdx s.counter).1) ≠ [] then
            s.ops ++ [mkOp winit (collectPhase s.assigned s.remaining s.tapeIdx s.counter).2.1
              (if fl ≠ [] then
                (collectPhase s.assigned s.remaining s.tapeIdx s.counter).1.filter
                  (fun n => decide (n.opId ∉ fl))
                else (collectPhase s.assigned s.remaining s.tapeIdx s.counter).1)]
          else s.ops), ∀ o ∈ op.outputIndices, 1 ≤ o
      intro op hop
      split at hop
      · split at hop
        · rcases List.mem_append.mp hop with hold | hnew
          · exact h3 op hold
          · rw [List.mem_singleton] at hnew
            subst hnew
            intro o ho
            rw [mkOp_outputIndices_eq] at ho
            rcases List.mem_map.mp ho with ⟨n, hn, rfl⟩
            have hnop := (List.mem_filter.mp hn).1
            have := collectPhase_opNode_getIdx s.assigned s.remaining s.tapeIdx
              s.counter n hnop
            omega
        · exact h3 op hop
      · split at hop
        · rcases List.mem_append.mp hop with hold | hnew
          · exact h3 op hold
          · rw [List.mem_singleton] at hnew
            subst hnew
            intro o ho
            rw [mkOp_outputIndices_eq] at ho
            rcases List.mem_map.mp ho with ⟨n, hn, rfl⟩
            have := collectPhase_opNode_getIdx s.assigned s.remaining s.tapeIdx
              s.counter n hn
            omega
        · exact h3 op hop

lemma runLoop_done_inv (winit : Nat → Nat → ℚ) (allN : List GNode) :
    ∀ (fuel : Nat) (s s' : CState), CInv s →
      runLoop winit allN fuel s = RunResult.done s' → CInv s' := by
  intro fuel
  induction fuel with
  | zero => intro s s' _ h; exact absurd h (by simp [runLoop])
  | succ n ih =>
    intro s s' hinv h
    rw [show runLoop winit allN (n + 1) s = (if s.remaining = [] then RunResult.done s
        else match step winit allN s with
          | none => RunResult.nameErr s
          | some s2 => runLoop winit allN n s2) from rfl] at h
    split at h
    · rw [RunResult.done.injEq] at h
      subst h
      exact hinv
    · split at h
      · exact absurd h (by simp)
      · rename_i s2 hstep
        exact ih s2 s' (step_inv winit allN s s2 hstep hinv) h

lemma initState_inv (g : Graph) : CInv (initState g) := by
  refine ⟨?_, ?_, ?_⟩
  · show 1 ≤ (assignInputs g.inputIds [] 1).2
    rw [assignInputs_counter]
    omega
  · intro p hp
    rcases assignInputs_mem g.inputIds [] 1 p hp with hm | hm
    · simp at hm
    · exact hm
  · intro op hop
    simp [initState] at hop

lemma construct_done_inv (g : Graph) (winit : Nat → Nat → ℚ) (fuel : Nat)
    (s : CState) (h : constructRun g winit fuel = RunResult.done s) : CInv s :=
  runLoop_done_inv winit (g.hidden ++ g.outputs) fuel (initState g) s
    (initState_inv g) h

/-! ## The tape: seeding and evaluation frame -/

lemma initRow_eq_scatter (m T : Nat) (xr : List ℚ) :
    initRow m T xr =
      scatterList (List.replicate T 0) ((List.range m).map (fun p => p + 1)) xr := by
  unfold initRow scatterList
  rw [List.zip_map_left, List.foldl_map]
  rfl

lemma initRow_length (m T : Nat) (xr : List ℚ) : (initRow m T xr).length = T := by
  rw [initRow_eq_scatter, scatterList_length, List.length_replicate]

lemma initRow_getD_zero (m T : Nat) (xr : List ℚ) (j : Nat)
    (hj : j = 0 ∨ m < j) : (initRow m T xr).getD j 0 = 0 := by
  rw [initRow_eq_scatter, scatterList_frame _ _ _ _ ?notmem]
  case notmem =>
    intro hmem
    rcases List.mem_map.mp hmem with ⟨p, hp, hpj⟩
    rw [List.mem_range] at hp
    omega
  exact getD_replicate_self T j 0

lemma initRow_getD_input (m T : Nat) (xr : List ℚ) (p : Nat)
    (hp : p < m) (hxr : xr.length = m) (hT : m + 1 ≤ T) :
    (initRow m T xr).getD (p + 1) 0 = xr.getD p 0 := by
  rw [initRow_eq_scatter]
  have hplt : p < ((List.range m).map (fun q => q + 1)).length := by simpa using hp
  have hidx : ((List.range m).map (fun q => q + 1)).getD p 0 = p + 1 := by
    rw [getD_map_lt _ _ _ _ (by simpa using hp), List.getElem_range]
  have hres := scatterList_getD_nodup ((List.range m).map (fun q => q + 1)) xr
    (List.replicate T 0) p
    (List.Nodup.map (fun a b hab => by omega) (List.nodup_range m))
    hplt (by simpa using hxr) (by rw [hidx, List.length_replicate]; omega)
  rw [hidx] at hres
  exact hres

lemma runOps_col_zero (actMap : Nat → ℚ → ℚ) (ops : List Op) :
    ∀ tape : List (List ℚ), (∀ op ∈ ops, (0 : Nat) ∉ op.outputIndices) →
      (∀ b, (tape.getD b []).getD 0 0 = 0) →
      ∀ b, ((runOps actMap ops tape).getD b []).getD 0 0 = 0 := by
  induction ops with
  | nil => intro tape _ h b; exact h b
  | cons op rest ih =>
    intro tape hops h b
    show ((runOps actMap rest (op.forward actMap tape)).getD b []).getD 0 0 = 0
    refine ih (op.forward actMap tape)
      (fun o ho => hops o (List.mem_cons_of_mem _ ho)) (fun b2 => ?_) b
    rw [forward_getD_frame actMap op tape b2 0 (hops op (List.mem_cons_self _ _))]
    exact h b2

lemma runOps_length (actMap : Nat → ℚ → ℚ) (ops : List Op) :
    ∀ tape : List (List ℚ), (runOps actMap ops tape).length = tape.length := by
  induction ops with
  | nil => intro tape; rfl
  | cons op rest ih =>
    intro tape
    show (runOps actMap rest (op.forward actMap tape)).length = _
    rw [ih, forward_length]

lemma insertByOutputIndex_length (n : GNode) (l : List GNode) :
    (insertByOutputIndex n l).length = l.length + 1 := by
  induction l with
  | nil => rfl
  | cons m rest ih =>
    by_cases h : n.outputIndex ≤ m.outputIndex
    · simp [insertByOutputIndex, h]
    · simp [insertByOutputIndex, h, ih]

lemma sortOutputs_length (l : List GNode) : (sortOutputs l).length = l.length := by
  induction l with
  | nil => rfl
  | cons n rest ih =>
    show (insertByOutputIndex n (sortOutputs rest)).length = _
    rw [insertByOutputIndex_length, ih]
    rfl

lemma runForward_length (actMap : Nat → ℚ → ℚ) (m : Model) (xs : List (List ℚ)) :
    (runForward actMap m xs).length = xs.length := by
  unfold runForward
  rw [List.length_map, runOps_length, List.length_map]

lemma runForward_row_length (actMap : Nat → ℚ → ℚ) (m : Model) (xs : List (List ℚ)) :
    ∀ row ∈ runForward actMap m xs, row.length = m.outputIndices.length := by
  intro row hrow
  unfold runForward at hrow
  rcases List.mem_map.mp hrow with ⟨r, _, hr⟩
  rw [← hr, List.length_map]

lemma mkModel_outputIndices_length (g : Graph) (s : CState) :
    (mkModel g s).outputIndices.length = g.outputs.length := by
  show ((sortOutputs g.outputs).map _).length = _
  rw [List.length_map, sortOutputs_length]

/-! ## Gather correctness: unique values plus inverse indices recover the
direct read -/

lemma mem_uniqList (l : List Nat) (x : Nat) (h : x ∈ l) : x ∈ uniqList l := by
  induction l with
  | nil => simp at h
  | cons y rest ih =>
    rcases List.mem_cons.mp h with h1 | h1
    · rw [h1]
      exact List.mem_cons_self _ _
    · by_cases hxy : x = y
      · rw [hxy]
        exact List.mem_cons_self _ _
      · show x ∈ y :: (uniqList rest).filter (fun z => z ≠ y)
        exact List.mem_cons_of_mem _
          (List.mem_filter.mpr ⟨ih h1, by simpa using hxy⟩)

lemma posOf_lt_length (l : List Nat) (x : Nat) (h : x ∈ l) :
    posOf x l < l.length := by
  induction l with
  | nil => simp at h
  | cons y rest ih =>
    by_cases hxy : y = x
    · simp [posOf, hxy]
    · have hx : x ∈ rest := by
        rcases List.mem_cons.mp h with h1 | h1
        · exact absurd h1.symm hxy
        · exact h1
      show (if y = x then 0 else posOf x rest + 1) < rest.length + 1
      rw [if_neg hxy]
      exact Nat.succ_lt_succ (ih hx)

lemma getD_posOf (l : List Nat) (x : Nat) (h : x ∈ l) :
    l.getD (posOf x l) 0 = x := by
  induction l with
  | nil => simp at h
  | cons y rest ih =>
    by_cases hxy : y = x
    · simp [posOf, hxy]
    · have hx : x ∈ rest := by
        rcases List.mem_cons.mp h with h1 | h1
        · exact absurd h1.symm hxy
        · exact h1
      show (y :: rest).getD (if y = x then 0 else posOf x rest + 1) 0 = x
      rw [if_neg hxy]
      exact ih hx

lemma gather_roundtrip (row : List ℚ) (uniq : List Nat) (e : Nat) (he : e ∈ uniq) :
    (uniq.map (fun idx => row.getD idx 0)).getD (posOf e uniq) 0 = row.getD e 0 := by
  have hlt : posOf e uniq < uniq.length := posOf_lt_length uniq e he
  rw [getD_map_lt _ _ _ _ hlt]
  have huq : uniq[posOf e uniq] = e := by
    rw [← List.getD_eq_getElem _ _ hlt]
    exact getD_posOf uniq e he
  rw [huq]

lemma mkOp_inverse_eq (winit : Nat → Nat → ℚ) (tapeIdx : List (Nat × Nat))
    (nodes : List GNode) :
    (mkOp winit tapeIdx nodes).inverseInputIndices =
      (mkOp winit tapeIdx nodes).inputIndices.map
        (fun r => r.map (fun e => posOf e (mkOp winit tapeIdx nodes).uniqueInputIndices)) := rfl

lemma mkOp_unique_eq (winit : Nat → Nat → ℚ) (tapeIdx : List (Nat × Nat))
    (nodes : List GNode) :
    (mkOp winit tapeIdx nodes).uniqueInputIndices =
      uniqList ((mkOp winit tapeIdx nodes).inputIndices.flatten) := rfl

lemma inverse_gather_eq (winit : Nat → Nat → ℚ) (tapeIdx : List (Nat × Nat))
    (nodes : List GNode) (row : List ℚ) :
    (mkOp winit tapeIdx nodes).inverseInputIndices.map
      (fun ir => ir.map (fun u =>
        ((mkOp winit tapeIdx nodes).uniqueInputIndices.map
          (fun idx => row.getD idx 0)).getD u 0)) =
      gatherDirect (mkOp winit tapeIdx nodes) row := by
  rw [mkOp_inverse_eq, List.map_map]
  unfold gatherDirect
  refine List.map_congr_left (fun r hr => ?_)
  show (r.map (fun e => posOf e (mkOp winit tapeIdx nodes).uniqueInputIndices)).map _ = _
  rw [List.map_map]
  refine List.map_congr_left (fun e he => ?_)
  show ((mkOp winit tapeIdx nodes).uniqueInputIndices.map
      (fun idx => row.getD idx 0)).getD
    (posOf e (mkOp winit tapeIdx nodes).uniqueInputIndices) 0 = row.getD e 0
  refine gather_roundtrip row _ e ?_
  rw [mkOp_unique_eq]
  exact mem_uniqList _ e (List.mem_flatten.mpr ⟨r, hr, he⟩)

/-! ## The activation grouping is a partition of the batch rows -/

lemma insertAct_mem_idx (acc : List (Nat × List Nat)) (a i : Nat)
    (p : Nat × List Nat) (hp : p ∈ insertAct acc a i) (k : Nat) (hk : k ∈ p.2) :
    (∃ q ∈ acc, q.1 = p.1 ∧ k ∈ q.2) ∨ (p.1 = a ∧ k = i) := by
  induction acc with
  | nil =>
    rw [show insertAct [] a i = [(a, [i])] from rfl, List.mem_singleton] at hp
    subst hp
    exact Or.inr ⟨rfl, by simpa using hk⟩
  | cons q rest ih =>
    obtain ⟨qa, qg⟩ := q
    by_cases hqa : qa = a
    · rw [show insertAct ((qa, qg) :: rest) a i = (a, qg ++ [i]) :: rest by
        simp [insertAct, hqa]] at hp
      rcases List.mem_cons.mp hp with h1 | h1
      · subst h1
        rcases List.mem_append.mp hk with h2 | h2
        · exact Or.inl ⟨(qa, qg), List.mem_cons_self _ _, by simp [hqa], h2⟩
        · exact Or.inr ⟨rfl, by simpa using h2⟩
      · exact Or.inl ⟨p, List.mem_cons_of_mem _ h1, rfl, hk⟩
    · rw [show insertAct ((qa, qg) :: rest) a i = (qa, qg) :: insertAct rest a i by
        simp [insertAct, hqa]] at hp
      rcases List.mem_cons.mp hp with h1 | h1
      · exact Or.inl ⟨p, by rw [h1]; exact List.mem_cons_self _ _, rfl, hk⟩
      · rcases ih h1 with ⟨q2, hq2, hq2e, hq2k⟩ | h2
        · exact Or.inl ⟨q2, List.mem_cons_of_mem _ hq2, hq2e, hq2k⟩
        · exact Or.inr h2

lemma insertAct_cover_old (acc : List (Nat × List Nat)) (a i : Nat)
    (q : Nat × List Nat) (hq : q ∈ acc) (k : Nat) (hk : k ∈ q.2) :
    ∃ p ∈ insertAct acc a i, p.1 = q.1 ∧ k ∈ p.2 := by
  induction acc with
  | nil => simp at hq
  | cons r rest ih =>
    obtain ⟨ra, rg⟩ := r
    by_cases hra : ra = a
    · rw [show insertAct ((ra, rg) :: rest) a i = (a, rg ++ [i]) :: rest by
        simp [insertAct, hra]]
      rcases List.mem_cons.mp hq with h1 | h1
    

      · refine ⟨(a, rg ++ [i]), List.mem_cons_self _ _, ?_, ?_⟩
        · rw [h1]
          simpa using hra.symm
        · rw [h1] at hk
          exact List.mem_append.mpr (Or.inl hk)
      · exact ⟨q, List.mem_cons_of_mem _ h1, rfl, hk⟩
    · rw [show insertAct ((ra, rg) :: rest) a i = (ra, rg) :: insertAct rest a i by
        simp [insertAct, hra]]
      rcases List.mem_cons.mp hq with h1 | h1
      · exact ⟨(ra, rg), List.mem_cons_self _ _, by rw [h1], by rw [h1] at hk; exact hk⟩
      · rcases ih h1 with ⟨p, hp, hpe, hpk⟩
        exact ⟨p, List.mem_cons_of_mem _ hp, hpe, hpk⟩

lemma insertAct_cover_new (acc : List (Nat × List Nat)) (a i : Nat) :
    ∃ p ∈ insertAct acc a i, p.1 = a ∧ i ∈ p.2 := by
  induction acc with
  | nil => exact ⟨(a, [i]), by simp [insertAct]⟩
  | cons r rest ih =>
    obtain ⟨ra, rg⟩ := r
    by_cases hra : ra = a
    · rw [show insertAct ((ra, rg) :: rest) a i = (a, rg ++ [i]) :: rest by
        simp [insertAct, hra]]
      exact ⟨(a, rg ++ [i]), List.mem_cons_self _ _, rfl, by simp⟩
    · rw [show insertAct ((ra, rg) :: rest) a i = (ra, rg) :: insertAct rest a i by
        simp [insertAct, hra]]
      rcases ih with ⟨p, hp, hpe, hpk⟩
      exact ⟨p, List.mem_cons_of_mem _ hp, hpe, hpk⟩

lemma insertAct_keys (acc : List (Nat × List Nat)) (a i : Nat) :
    (insertAct acc a i).map Prod.fst =
      if a ∈ acc.map Prod.fst then acc.map Prod.fst else acc.map Prod.fst ++ [a] := by
  induction acc with
  | nil => simp [insertAct]
  | cons r rest ih =>
    obtain ⟨ra, rg⟩ := r
    by_cases hra : ra = a
    · rw [show insertAct ((ra, rg) :: rest) a i = (a, rg ++ [i]) :: rest by
        simp [insertAct, hra]]
      simp [hra]
    · rw [show insertAct ((ra, rg) :: rest) a i = (ra, rg) :: insertAct rest a i by
        simp [insertAct, hra]]
      have har : ¬a = ra := fun h => hra h.symm
      by_cases hmem : a ∈ rest.map Prod.fst
      · simp [hmem, ih, har]
      · simp [hmem, ih, har]
lemma insertAct_keys_nodup (acc : List (Nat × List Nat)) (a i : Nat)
    (h : (acc.map Prod.fst).Nodup) : ((insertAct acc a i).map Prod.fst).Nodup := by
  rw [insertAct_keys]
  split
  · exact h
  · rename_i hmem
    simp [List.nodup_append, h, hmem]

lemma insertAct_bound (acc : List (Nat × List Nat)) (a i : Nat)
    (hlt : ∀ p ∈ acc, ∀ k ∈ p.2, k < i) :
    ∀ p ∈ insertAct acc a i, ∀ k ∈ p.2, k < i + 1 := by
  intro p hp k hk
  rcases insertAct_mem_idx acc a i p hp k hk with ⟨q, hq, _, hqk⟩ | ⟨_, hki⟩
  · exact Nat.lt_succ_of_lt (hlt q hq k hqk)
  · omega

lemma insertAct_groups_nodup (acc : List (Nat × List Nat)) (a i : Nat)
    (hlt : ∀ p ∈ acc, ∀ k ∈ p.2, k < i) (hnd : ∀ p ∈ acc, p.2.Nodup) :
    ∀ p ∈ insertAct acc a i, p.2.Nodup := by
  induction acc with
  | nil =>
    intro p hp
    rw [show insertAct [] a i = [(a, [i])] from rfl, List.mem_singleton] at hp
    subst hp
    simp
  | cons r rest ih =>
    obtain ⟨ra, rg⟩ := r
    intro p hp
    by_cases hra : ra = a
    · rw [show insertAct ((ra, rg) :: rest) a i = (a, rg ++ [i]) :: rest by
        simp [insertAct, hra]] at hp
      rcases List.mem_cons.mp hp with h1 | h1
      · subst h1
        have hrg : rg.Nodup := hnd (ra, rg) (List.mem_cons_self _ _)
        have hi : i ∉ rg := fun hmem =>
          absurd (hlt (ra, rg) (List.mem_cons_self _ _) i hmem) (by omega)
        simp [List.nodup_append, hrg, hi]
      · exact hnd p (List.mem_cons_of_mem _ h1)
    · rw [show insertAct ((ra, rg) :: rest) a i = (ra, rg) :: insertAct rest a i by
        simp [insertAct, hra]] at hp
      rcases List.mem_cons.mp hp with h1 | h1
      · subst h1
        exact hnd (ra, rg) (List.mem_cons_self _ _)
      · exact ih (fun q hq => hlt q (List.mem_cons_of_mem _ hq))
          (fun q hq => hnd q (List.mem_cons_of_mem _ hq)) p h1

lemma buildAux_spec (actOf : Nat → Nat) :
    ∀ (rest : List GNode) (i : Nat) (acc : List (Nat × List Nat)),
      (∀ m : Nat, ∀ hm : m < rest.length, (rest.get ⟨m, hm⟩).activation = actOf (i + m)) →
      (∀ p ∈ acc, ∀ k ∈ p.2, k < i) →
      (∀ p ∈ acc, ∀ k ∈ p.2, actOf k = p.1) →
      (∀ k, k < i → ∃ p ∈ acc, k ∈ p.2) →
      ((acc.map Prod.fst).Nodup) →
      (∀ p ∈ acc, p.2.Nodup) →
      GroupsSpec actOf (i + rest.length) (buildActGroupsAux i rest acc) := by
  intro rest
  induction rest with
  | nil =>
    intro i acc _ hbound hsound hcover hknd hgnd
    refine ⟨?_, ?_, hknd, hgnd⟩
    · intro p hp k hk
      exact ⟨by simpa using hbound p hp k hk, hsound p hp k hk⟩
    · intro k hk
      exact hcover k (by simpa using hk)
  | cons nd rest2 ih =>
    intro i acc hacts hbound hsound hcover hknd hgnd
    show GroupsSpec actOf _ (buildActGroupsAux (i + 1) rest2 (insertAct acc nd.activation i))
    have hres := ih (i + 1) (insertAct acc nd.activation i)
      (fun m hm => by
        have := hacts (m + 1) (by simpa using Nat.succ_lt_succ hm)
        simpa [Nat.add_assoc, Nat.add_comm 1 m] using this)
      (insertAct_bound acc nd.activation i hbound)
      (fun p hp k hk => by
        rcases insertAct_mem_idx acc nd.activation i p hp k hk with ⟨q, hq, hqe, hqk⟩ | ⟨hpa, hki⟩
        · rw [← hqe]
          exact hsound q hq k hqk
        · rw [hpa, hki]
          have := hacts 0 (by simp)
          simpa using this.symm)
      (fun k hk => by
        rcases Nat.lt_or_ge k i with h1 | h1
        · rcases hcover k h1 with ⟨q, hq, hqk⟩
          rcases insertAct_cover_old acc nd.activation i q hq k hqk with ⟨p, hp, _, hpk⟩
          exact ⟨p, hp, hpk⟩
        · have hki : k = i := by omega
          rcases insertAct_cover_new acc nd.activation i with ⟨p, hp, _, hpk⟩
          exact ⟨p, hp, by rw [hki]; exact hpk⟩)
      (insertAct_keys_nodup acc nd.activation i hknd)
      (insertAct_groups_nodup acc nd.activation i hbound hgnd)
    have harith : i + 1 + rest2.length = i + (nd :: rest2).length := by
      simp
      omega
    rw [harith] at hres
    exact hres

lemma buildActGroups_spec (nodes : List GNode) :
    GroupsSpec (fun k => (nodes.getD k default).activation) nodes.length
      (buildActGroups nodes) := by
  have h := buildAux_spec (fun k => (nodes.getD k default).activation) nodes 0 []
    (fun m hm => by
      show (nodes.get ⟨m, hm⟩).activation = (nodes.getD (0 + m) default).activation
      rw [Nat.zero_add, List.getD_eq_getElem _ _ hm]
      rfl)
    (fun p hp => by simp at hp) (fun p hp => by simp at hp)
    (fun k hk => by omega) (by simp) (fun p hp => by simp at hp)
  simpa [buildActGroups] using h

/-! ## The per-activation-group scatter applies each row's own activation -/

lemma applyActGroups_length (actMap : Nat → ℚ → ℚ) (groups : List (Nat × List Nat)) :
    ∀ x : List ℚ, (applyActGroups actMap groups x).length = x.length := by
  induction groups with
  | nil => intro x; rfl
  | cons p rest ih =>
    intro x
    show (applyActGroups actMap rest _).length = _
    rw [ih, scatterList_length]

lemma scatterList_map_self (x : List ℚ) (g : List Nat) (f : Nat → ℚ) (k : Nat)
    (hnd : g.Nodup) (hk : k ∈ g) (hb : k < x.length) :
    (scatterList x g (g.map f)).getD k 0 = f k := by
  have hm : posOf k g < g.length := posOf_lt_length g k hk
  have hg : g.getD (posOf k g) 0 = k := getD_posOf g k hk
  have hres := scatterList_getD_nodup g (g.map f) x (posOf k g) hnd hm
    (by rw [List.length_map]) (by rw [hg]; exact hb)
  rw [hg] at hres
  rw [hres, getD_map_lt _ _ _ _ hm]
  have : g[posOf k g] = k := by
    rw [← List.getD_eq_getElem _ _ hm]
    exact hg
  rw [this]

lemma applyActGroups_getD_not_mem (actMap : Nat → ℚ → ℚ)
    (groups : List (Nat × List Nat)) :
    ∀ (x : List ℚ) (k : Nat), (∀ p ∈ groups, k ∉ p.2) →
      (applyActGroups actMap groups x).getD k 0 = x.getD k 0 := by
  induction groups with
  | nil => intro x k _; rfl
  | cons p rest ih =>
    intro x k hcov
    show (applyActGroups actMap rest
      (scatterList x p.2 (p.2.map (fun j => actMap p.1 (x.getD j 0))))).getD k 0 = _
    rw [ih _ k (fun q hq => hcov q (List.mem_cons_of_mem _ hq)),
      scatterList_frame _ _ _ _ (hcov p (List.mem_cons_self _ _))]

lemma applyActGroups_getD_mem (actMap : Nat → ℚ → ℚ) (actOf : Nat → Nat)
    (groups : List (Nat × List Nat)) :
    ∀ (x : List ℚ) (k : Nat), k < x.length →
      (∀ p ∈ groups, ∀ j ∈ p.2, actOf j = p.1) →
      ((groups.map Prod.fst).Nodup) →
      (∀ p ∈ groups, p.2.Nodup) →
      (∃ p ∈ groups, k ∈ p.2) →
      (applyActGroups actMap groups x).getD k 0 = actMap (actOf k) (x.getD k 0) := by
  induction groups with
  | nil =>
    intro x k _ _ _ _ hcov
    simp at hcov
  | cons p rest ih =>
    intro x k hk hsound hknd hgnd hcov
    show (applyActGroups actMap rest
      (scatterList x p.2 (p.2.map (fun j => actMap p.1 (x.getD j 0))))).getD k 0 = _
    by_cases hkp : k ∈ p.2
    · have ha : actOf k = p.1 := hsound p (List.mem_cons_self _ _) k hkp
      have hrest : ∀ q ∈ rest, k ∉ q.2 := by
        intro q hq hkq
        have haq : actOf k = q.1 := hsound q (List.mem_cons_of_mem _ hq) k hkq
        have : q.1 ∈ rest.map Prod.fst := List.mem_map.mpr ⟨q, hq, rfl⟩
        rw [List.map_cons, List.nodup_cons] at hknd
        exact hknd.1 (by rw [← haq, ha] at this; exact this)
      rw [applyActGroups_getD_not_mem actMap rest _ k hrest,
        scatterList_map_self x p.2 _ k (hgnd p (List.mem_cons_self _ _)) hkp hk, ha]
    · have hcov2 : ∃ q ∈ rest, k ∈ q.2 := by
        rcases hcov with ⟨q, hq, hkq⟩
        rcases List.mem_cons.mp hq with h1 | h1
        · exact absurd (by rw [← h1]; exact hkq) hkp
        · exact ⟨q, h1, hkq⟩
      rw [ih _ k (by rw [scatterList_length]; exact hk)
        (fun q hq => hsound q (List.mem_cons_of_mem _ hq))
        ((List.nodup_cons.mp (by rw [List.map_cons] at hknd; exact hknd)).2)
        (fun q hq => hgnd q (List.mem_cons_of_mem _ hq)) hcov2,
        scatterList_frame _ _ _ _ hkp]

/-! ## Op.forward computes activation(weighted sum + bias) at each output -/

lemma mkOp_weights_length (winit : Nat → Nat → ℚ) (tapeIdx : List (Nat × Nat))
    (nodes : List GNode) :
    (mkOp winit tapeIdx nodes).weights.length = nodes.length := by
  rw [mkOp_weights_eq, List.length_map, List.enum_length, mkOp_inputIndices_length]

lemma mkOp_bias_eq (winit : Nat → Nat → ℚ) (tapeIdx : List (Nat × Nat))
    (nodes : List GNode) :
    (mkOp winit tapeIdx nodes).bias = List.replicate nodes.length 0 := rfl

lemma mkOp_actgroups_eq (winit : Nat → Nat → ℚ) (tapeIdx : List (Nat × Nat))
    (nodes : List GNode) :
    (mkOp winit tapeIdx nodes).activationIndexMap = buildActGroups nodes := rfl

lemma mkOp_outputIndices_length (winit : Nat → Nat → ℚ) (tapeIdx : List (Nat × Nat))
    (nodes : List GNode) :
    (mkOp winit tapeIdx nodes).outputIndices.length = nodes.length := by
  rw [mkOp_outputIndices_eq, List.length_map]

lemma mkOp_preActList_length (winit : Nat → Nat → ℚ) (tapeIdx : List (Nat × Nat))
    (nodes : List GNode) (row : List ℚ) :
    (preActList (mkOp winit tapeIdx nodes) row).length = nodes.length := by
  have h1 := mkOp_inputIndices_length winit tapeIdx nodes
  have h2 := mkOp_weights_length winit tapeIdx nodes
  have h3 := mkOp_bias_eq winit tapeIdx nodes
  simp [preActList, gatherDirect, h1, h2, h3]

lemma preActList_getD (op : Op) (row : List ℚ) (k : Nat)
    (h1 : k < op.inputIndices.length) (h2 : k < op.weights.length)
    (h3 : k < op.bias.length) :
    (preActList op row).getD k 0 = nodePre op row k := by
  have hk2 : k < (preActList op row).length := by
    simp only [preActList, gatherDirect, List.length_map, List.length_zip, lt_min_iff]
    exact ⟨⟨h1, h2⟩, h3⟩
  rw [List.getD_eq_getElem _ _ hk2]
  unfold preActList gatherDirect nodePre
  simp only [List.getElem_map, List.getElem_zip]
  rw [List.getD_eq_getElem _ _ h1, List.getD_eq_getElem _ _ h2,
    List.getD_eq_getElem _ _ h3]

lemma forwardRow_mkOp_eq (actMap : Nat → ℚ → ℚ) (winit : Nat → Nat → ℚ)
    (tapeIdx : List (Nat × Nat)) (nodes : List GNode) (row : List ℚ) :
    Op.forwardRow actMap (mkOp winit tapeIdx nodes) row =
      scatterList row (mkOp winit tapeIdx nodes).outputIndices
        (applyActGroups actMap (mkOp winit tapeIdx nodes).activationIndexMap
          (preActList (mkOp winit tapeIdx nodes) row)) := by
  simp only [Op.forwardRow]
  congr 1
  congr 1
  unfold preActList
  rw [← inverse_gather_eq winit tapeIdx nodes row]

lemma op_forward_value (actMap : Nat → ℚ → ℚ) (winit : Nat → Nat → ℚ)
    (tapeIdx : List (Nat × Nat)) (nodes : List GNode) (tape : List (List ℚ))
    (b k : Nat) (hb : b < tape.length) (hk : k < nodes.length)
    (hnd : (mkOp winit tapeIdx nodes).outputIndices.Nodup)
    (hout : ∀ o ∈ (mkOp winit tapeIdx nodes).outputIndices,
      o < (tape.getD b []).length) :
    ((Op.forward actMap (mkOp winit tapeIdx nodes) tape).getD b []).getD
        ((mkOp winit tapeIdx nodes).outputIndices.getD k 0) 0 =
      actMap ((nodes.getD k default).activation)
        (nodePre (mkOp winit tapeIdx nodes) (tape.getD b []) k) := by
  have hfw : (Op.forward actMap (mkOp winit tapeIdx nodes) tape).getD b [] =
      Op.forwardRow actMap (mkOp winit tapeIdx nodes) (tape.getD b []) := by
    show ((tape.map _).getD b []) = _
    rw [getD_map_lt _ _ _ _ hb, List.getD_eq_getElem _ _ hb]
  rw [hfw, forwardRow_mkOp_eq]
  have hko : k < (mkOp winit tapeIdx nodes).outputIndices.length := by
    rw [mkOp_outputIndices_length]
    exact hk
  have hvl : (applyActGroups actMap (mkOp winit tapeIdx nodes).activationIndexMap
      (preActList (mkOp winit tapeIdx nodes) (tape.getD b []))).length =
      (mkOp winit tapeIdx nodes).outputIndices.length := by
    rw [applyActGroups_length, mkOp_preActList_length, mkOp_outputIndices_length]
  have hbound : (mkOp winit tapeIdx nodes).outputIndices.getD k 0 <
      (tape.getD b []).length := by
    refine hout _ ?_
    rw [List.getD_eq_getElem _ _ hko]
    exact List.getElem_mem hko
  rw [scatterList_getD_nodup _ _ _ k hnd hko hvl hbound]
  have hspec := buildActGroups_spec nodes
  rw [mkOp_actgroups_eq,
    applyActGroups_getD_mem actMap (fun j => (nodes.getD j default).activation)
      (buildActGroups nodes) _ k
      (by rw [mkOp_preActList_length]; exact hk)
      (fun p hp j hj => (hspec.sound p hp j hj).2)
      hspec.keysNodup hspec.groupsNodup (hspec.cover k hk),
    preActList_getD _ _ _ (by rw [mkOp_inputIndices_length]; exact hk)
      (by rw [mkOp_weights_length]; exact hk)
      (by rw [mkOp_bias_eq, List.length_replicate]; exact hk)]

/-! ## The single round of a zero-hidden-node model -/

lemma assignInputs_getIdx_not_mem (ids : List Nat) :
    ∀ (idx : List (Nat × Nat)) (i key : Nat), key ∉ ids →
      getIdx (assignInputs ids idx i).1 key = getIdx idx key := by
  induction ids with
  | nil => intro idx i key _; rfl
  | cons a rest ih =>
    intro idx i key hkey
    show getIdx (assignInputs rest (setIdx idx a i) (i + 1)).1 key = _
    rw [ih _ _ _ (fun hm => hkey (List.mem_cons_of_mem _ hm)),
      getIdx_setIdx_ne _ _ _ _ (fun he => hkey (by rw [he]; exact List.mem_cons_self _ _))]

lemma assignInputs_getIdx_mem (ids : List Nat) :
    ∀ (idx : List (Nat × Nat)) (i id : Nat), ids.Nodup → id ∈ ids →
      getIdx (assignInputs ids idx i).1 id = i + posOf id ids := by
  induction ids with
  | nil => intro idx i id _ h; simp at h
  | cons a rest ih =>
    intro idx i id hnd hid
    show getIdx (assignInputs rest (setIdx idx a i) (i + 1)).1 id =
      i + (if a = id then 0 else posOf id rest + 1)
    by_cases haid : a = id
    · rw [if_pos haid, haid,
        assignInputs_getIdx_not_mem rest _ _ _ (by
          rw [← haid]
          exact (List.nodup_cons.mp hnd).1),
        getIdx_setIdx_self]
      omega
    · have hidr : id ∈ rest := by
        rcases List.mem_cons.mp hid with h1 | h1
        · exact absurd h1.symm haid
        · exact h1
      rw [if_neg haid, ih (setIdx idx a i) (i + 1) id (List.nodup_cons.mp hnd).2 hidr]
      omega

lemma posOf_getElem (l : List Nat) :
    ∀ (k : Nat) (hk : k < l.length), l.Nodup → posOf (l.get ⟨k, hk⟩) l = k := by
  induction l with
  | nil => intro k hk; simp at hk
  | cons y rest ih =>
    intro k hk hnd
    cases k with
    | zero => simp [posOf]
    | succ k2 =>
      have hk2 : k2 < rest.length := by simpa using hk
      have hmem : rest.get ⟨k2, hk2⟩ ∈ rest := List.get_mem rest k2 hk2
      have hy : ¬y = rest.get ⟨k2, hk2⟩ := fun he =>
        (List.nodup_cons.mp hnd).1 (by rw [he]; exact hmem)
      show (if y = rest.get ⟨k2, hk2⟩ then 0 else posOf (rest.get ⟨k2, hk2⟩) rest + 1) =
        k2 + 1
      rw [if_neg hy, ih k2 hk2 (List.nodup_cons.mp hnd).2]

lemma collectPhase_all_opNodes (asg : List Nat) (rem : List GNode) :
    ∀ (idx : List (Nat × Nat)) (i : Nat),
      (∀ nd ∈ rem, ∀ inp ∈ nd.inputs, inp ∈ asg) →
      (collectPhase asg rem idx i).1 = rem := by
  induction rem with
  | nil => intro idx i _; rfl
  | cons n rest ih =>
    intro idx i helig
    have hel : n.inputs.all (fun inp => inp ∈ asg) = true := by
      rw [List.all_eq_true]
      intro x hx
      simpa using helig n (List.mem_cons_self _ _) x hx
    rw [show collectPhase asg (n :: rest) idx i =
      (n :: (collectPhase asg rest (setIdx idx n.nid i) (i + 1)).1,
       (collectPhase asg rest (setIdx idx n.nid i) (i + 1)).2.1,
       (collectPhase asg rest (setIdx idx n.nid i) (i + 1)).2.2) by
        simp [collectPhase, hel]]
    rw [ih _ _ (fun nd hnd => helig nd (List.mem_cons_of_mem _ hnd))]

lemma collectPhase_all_idx (asg : List Nat) (rem : List GNode) :
    ∀ (idx : List (Nat × Nat)) (i : Nat),
      (∀ nd ∈ rem, ∀ inp ∈ nd.inputs, inp ∈ asg) →
      (collectPhase asg rem idx i).2.1 =
        (assignInputs (rem.map GNode.nid) idx i).1 := by
  induction rem with
  | nil => intro idx i _; rfl
  | cons n rest ih =>
    intro idx i helig
    have hel : n.inputs.all (fun inp => inp ∈ asg) = true := by
      rw [List.all_eq_true]
      intro x hx
      simpa using helig n (List.mem_cons_self _ _) x hx
    rw [show (collectPhase asg (n :: rest) idx i).2.1 =
      (collectPhase asg rest (setIdx idx n.nid i) (i + 1)).2.1 by
        simp [collectPhase, hel]]
    rw [ih _ _ (fun nd hnd => helig nd (List.mem_cons_of_mem _ hnd))]
    rfl

lemma checkNode_complete (allN opN : List GNode) (last : GNode)
    (hsub : ∀ x ∈ idNodeMap allN last.opId, x ∈ opN) :
    checkNode allN opN last = [] := by
  unfold checkNode
  split
  · rw [if_neg]
    intro hany
    rw [List.any_eq_true] at hany
    rcases hany with ⟨x, hx, hdx⟩
    rw [decide_eq_true_eq] at hdx
    exact hdx (hsub x hx)
  · rfl

lemma step_all_eligible (winit : Nat → Nat → ℚ) (allN : List GNode) (s : CState)
    (hne : s.remaining ≠ [])
    (helig : ∀ nd ∈ s.remaining, ∀ inp ∈ nd.inputs, inp ∈ s.assigned)
    (hgrp : ∀ x ∈ idNodeMap allN ((s.remaining.getLast hne).opId), x ∈ s.remaining) :
    step winit allN s = some
      { tapeIdx := (assignInputs (s.remaining.map GNode.nid) s.tapeIdx s.counter).1
        assigned := s.assigned ++ s.remaining.map GNode.nid
        counter := s.counter + s.remaining.length
        remaining := []
        ops := s.ops ++ [mkOp winit
          (assignInputs (s.remaining.map GNode.nid) s.tapeIdx s.counter).1 s.remaining]
        fails := some [] } := by
  have h1 : (collectPhase s.assigned s.remaining s.tapeIdx s.counter).1 = s.remaining :=
    collectPhase_all_opNodes s.assigned s.remaining s.tapeIdx s.counter helig
  have h2 : (collectPhase s.assigned s.remaining s.tapeIdx s.counter).2.1 =
      (assignInputs (s.remaining.map GNode.nid) s.tapeIdx s.counter).1 :=
    collectPhase_all_idx s.assigned s.remaining s.tapeIdx s.counter helig
  have h3 : (collectPhase s.assigned s.remaining s.tapeIdx s.counter).2.2 =
      s.counter + s.remaining.length := by
    rw [collectPhase_counter, h1]
  have hfilt : s.remaining.filter (fun n => decide (n ∉ s.remaining)) = [] := by
    rw [List.filter_eq_nil]
    intro a ha
    simp [ha]
  simp only [step]
  rw [h1, h2, h3, List.getLast?_eq_getLast s.remaining hne]
  dsimp only
  rw [checkNode_complete allN s.remaining (s.remaining.getLast hne) hgrp]
  simp [hne, hfilt]

lemma constructRun_no_hidden (g : Graph) (winit : Nat → Nat → ℚ)
    (hhid : g.hidden = []) (hne : g.outputs ≠ [])
    (hIn : ∀ nd ∈ g.outputs, ∀ inp ∈ nd.inputs, inp ∈ g.inputIds) :
    constructRun g winit 2 = RunResult.done
      { tapeIdx := (assignInputs (g.outputs.map GNode.nid)
          (assignInputs g.inputIds [] 1).1 (assignInputs g.inputIds [] 1).2).1
        assigned := g.inputIds ++ g.outputs.map GNode.nid
        counter := (assignInputs g.inputIds [] 1).2 + g.outputs.length
        remaining := []
        ops := [mkOp winit (assignInputs (g.outputs.map GNode.nid)
          (assignInputs g.inputIds [] 1).1 (assignInputs g.inputIds [] 1).2).1 g.outputs]
        fails := some [] } := by
  have hrem : (initState g).remaining = g.outputs := by
    show g.hidden ++ g.outputs = g.outputs
    rw [hhid, List.nil_append]
  have hrne : (initState g).remaining ≠ [] := by
    rw [hrem]
    exact hne
  have helig : ∀ nd ∈ (initState g).remaining, ∀ inp ∈ nd.inputs,
      inp ∈ (initState g).assigned := by
    rw [hrem]
    exact fun nd hnd inp hinp => hIn nd hnd inp hinp
  have hgrp : ∀ x ∈ idNodeMap (g.hidden ++ g.outputs)
      (((initState g).remaining.getLast hrne).opId), x ∈ (initState g).remaining := by
    intro x hx
    rw [hrem]
    rw [hhid, List.nil_append] at hx
    exact (List.mem_filter.mp hx).1
  have hstep := step_all_eligible winit (g.hidden ++ g.outputs) (initState g)
    hrne helig hgrp
  show runLoop winit (g.hidden ++ g.outputs) 2 (initState g) = _
  rw [show runLoop winit (g.hidden ++ g.outputs) 2 (initState g) =
      (if (initState g).remaining = [] then RunResult.done (initState g)
       else match step winit (g.hidden ++ g.outputs) (initState g) with
        | none => RunResult.nameErr (initState g)
        | some s2 => runLoop winit (g.hidden ++ g.outputs) 1 s2) from rfl,
    if_neg hrne, hstep]
  show RunResult.done _ = RunResult.done _
  rw [hrem]
  rfl

lemma maxRowLen_ge (rows : List (List Nat)) (r : List Nat) (hr : r ∈ rows) :
    r.length ≤ maxRowLen rows := by
  induction rows with
  | nil => simp at hr
  | cons q rest ih =>
    show r.length ≤ max q.length (maxRowLen rest)
    rcases List.mem_cons.mp hr with h1 | h1
    · rw [h1]
      exact Nat.le_max_left _ _
    · exact Nat.le_trans (ih h1) (Nat.le_max_right _ _)

lemma mkOp_inputIndices_getD (winit : Nat → Nat → ℚ) (tapeIdx : List (Nat × Nat))
    (nodes : List GNode) (k : Nat) (hk : k < nodes.length) :
    (mkOp winit tapeIdx nodes).inputIndices.getD k [] =
      ((nodes.getD k default).inputs.map (getIdx tapeIdx)) ++
        List.replicate (maxRowLen (nodeRows tapeIdx nodes) -
          ((nodes.getD k default).inputs.map (getIdx tapeIdx)).length) 0 := by
  have hkr : k < (nodeRows tapeIdx nodes).length := by simp [nodeRows, hk]
  have hget : (nodeRows tapeIdx nodes)[k] =
      ((nodes.getD k default).inputs).map (getIdx tapeIdx) := by
    show (nodes.map (fun n => n.inputs.map (getIdx tapeIdx)))[k] = _
    rw [List.getElem_map, List.getD_eq_getElem _ _ hk]
  rw [mkOp_inputIndices_eq, getD_map_lt _ _ _ _ hkr, hget]

lemma mkOp_weights_getD_eq (winit : Nat → Nat → ℚ) (tapeIdx : List (Nat × Nat))
    (nodes : List GNode) (k : Nat)
    (hk : k < (mkOp winit tapeIdx nodes).inputIndices.length) :
    (mkOp winit tapeIdx nodes).weights.getD k [] =
      ((((mkOp winit tapeIdx nodes).inputIndices)[k]).enum).map
        (fun q => if q.2 = 0 then 0 else winit k q.1) := by
  have hke : k < (mkOp winit tapeIdx nodes).inputIndices.enum.length := by
    simpa [List.enum_length] using hk
  rw [mkOp_weights_eq, getD_map_lt _ _ _ _ hke, List.getElem_enum]

lemma list_ext_getD (l1 l2 : List ℚ) (hlen : l1.length = l2.length)
    (h : ∀ j, l1.getD j 0 = l2.getD j 0) : l1 = l2 := by
  refine List.ext_getElem hlen (fun n h1 h2 => ?_)
  have hn := h n
  rw [List.getD_eq_getElem _ _ h1, List.getD_eq_getElem _ _ h2] at hn
  exact hn

lemma mkOp_weights_row_length (winit : Nat → Nat → ℚ) (tapeIdx : List (Nat × Nat))
    (nodes : List GNode) (k : Nat) (hk : k < nodes.length) :
    ((mkOp winit tapeIdx nodes).weights.getD k []).length =
      ((mkOp winit tapeIdx nodes).inputIndices.getD k []).length := by
  have hki : k < (mkOp winit tapeIdx nodes).inputIndices.length := by
    rw [mkOp_inputIndices_length]
    exact hk
  rw [mkOp_weights_getD_eq winit tapeIdx nodes k hki, List.length_map,
    List.enum_length, List.getD_eq_getElem _ _ hki]

lemma mkOp_weights_getD_real (winit : Nat → Nat → ℚ) (tapeIdx : List (Nat × Nat))
    (nodes : List GNode) (k j : Nat) (hk : k < nodes.length)
    (hj : j < ((mkOp winit tapeIdx nodes).inputIndices.getD k []).length)
    (hnzj : ((mkOp winit tapeIdx nodes).inputIndices.getD k []).getD j 0 ≠ 0) :
    ((mkOp winit tapeIdx nodes).weights.getD k []).getD j 0 = winit k j := by
  have hki : k < (mkOp winit tapeIdx nodes).inputIndices.length := by
    rw [mkOp_inputIndices_length]
    exact hk
  rw [mkOp_weights_getD_eq winit tapeIdx nodes k hki]
  rw [List.getD_eq_getElem _ _ hki] at hj hnzj
  have hje : j < (((mkOp winit tapeIdx nodes).inputIndices[k]).enum).length := by
    rw [List.enum_length]
    exact hj
  rw [getD_map_lt _ _ _ _ hje, List.getElem_enum]
  rw [List.getD_eq_getElem _ _ hj] at hnzj
  simp [hnzj]

lemma mkOp_weights_decomp (winit : Nat → Nat → ℚ) (tapeIdx : List (Nat × Nat))
    (nodes : List GNode) (k : Nat) (hk : k < nodes.length)
    (hnz : ∀ t ∈ (nodes.getD k default).inputs.map (getIdx tapeIdx), t ≠ 0) :
    (mkOp winit tapeIdx nodes).weights.getD k [] =
      ((List.range (((nodes.getD k default).inputs).length)).map
        (fun j => winit k j)) ++
        List.replicate (maxRowLen (nodeRows tapeIdx nodes) -
          ((nodes.getD k default).inputs.map (getIdx tapeIdx)).length) 0 := by
  have hrow := mkOp_inputIndices_getD winit tapeIdx nodes k hk
  refine list_ext_getD _ _ ?_ ?_
  · rw [mkOp_weights_row_length winit tapeIdx nodes k hk, hrow]
    simp
  · intro j
    by_cases hjA : j < ((nodes.getD k default).inputs).length
    · have hjA2 : j < ((nodes.getD k default).inputs.map (getIdx tapeIdx)).length := by
        simpa using hjA
      have hjrow : j < ((mkOp winit tapeIdx nodes).inputIndices.getD k []).length := by
        rw [hrow, List.length_append]
        omega
      have hval : ((mkOp winit tapeIdx nodes).inputIndices.getD k []).getD j 0 =
          ((nodes.getD k default).inputs.map (getIdx tapeIdx)).getD j 0 := by
        rw [hrow, List.getD_append _ _ _ _ hjA2]
      have hnzj : ((mkOp winit tapeIdx nodes).inputIndices.getD k []).getD j 0 ≠ 0 := by
        rw [hval]
        refine hnz _ ?_
        rw [List.getD_eq_getElem _ _ hjA2]
        exact List.getElem_mem hjA2
      rw [mkOp_weights_getD_real winit tapeIdx nodes k j hk hjrow hnzj,
        List.getD_append _ _ _ _ (by simpa using hjA),
        getD_map_lt _ _ _ _ (by simpa using hjA), List.getElem_range]
    · have hpadj : ((nodes.getD k default).inputs).length ≤ j := Nat.le_of_not_lt hjA
      rw [mkOp_weights_getD_zero winit tapeIdx nodes k j
        (mkOp_padded_getD_zero winit tapeIdx nodes k j hpadj),
        List.getD_append_right _ _ _ _ (by simpa using hpadj),
        getD_replicate_self]

lemma sum_zip_append_padding (valsA wA valsR : List ℚ) (pad : Nat)
    (hlen : valsA.length = wA.length) :
    (((valsA ++ valsR).zip (wA ++ List.replicate pad 0)).map
      (fun q => q.1 * q.2)).sum =
      ((valsA.zip wA).map (fun q => q.1 * q.2)).sum := by
  rw [List.zip_append hlen, List.map_append, List.sum_append]
  have h0 : ((valsR.zip (List.replicate pad 0)).map (fun q => q.1 * q.2)).sum = 0 := by
    refine List.sum_eq_zero (fun x hx => ?_)
    rcases List.mem_map.mp hx with ⟨q, hq, he⟩
    obtain ⟨q1, q2⟩ := q
    have hq2 := (List.of_mem_zip hq).2
    rw [List.eq_of_mem_replicate hq2] at he
    rw [← he, mul_zero]
  rw [h0, add_zero]

lemma no_hidden_idx_input (g : Graph) (hNodupIn : g.inputIds.Nodup)
    (hdisj : ∀ nd ∈ g.outputs, nd.nid ∉ g.inputIds) (inp : Nat)
    (hin2 : inp ∈ g.inputIds) :
    getIdx (assignInputs (g.outputs.map GNode.nid)
      (assignInputs g.inputIds [] 1).1 (assignInputs g.inputIds [] 1).2).1 inp =
      1 + posOf inp g.inputIds := by
  have hnotout : inp ∉ g.outputs.map GNode.nid := by
    intro hmm
    rcases List.mem_map.mp hmm with ⟨nd, hnd, he⟩
    exact hdisj nd hnd (he ▸ hin2)
  rw [assignInputs_getIdx_not_mem _ _ _ _ hnotout,
    assignInputs_getIdx_mem _ _ _ _ hNodupIn hin2]

lemma no_hidden_nodePre (g : Graph) (winit : Nat → Nat → ℚ) (xr : List ℚ)
    (T k : Nat) (hk : k < g.outputs.length)
    (hNodupIn : g.inputIds.Nodup)
    (hdisj : ∀ nd ∈ g.outputs, nd.nid ∉ g.inputIds)
    (hIn : ∀ nd ∈ g.outputs, ∀ inp ∈ nd.inputs, inp ∈ g.inputIds)
    (hxr : xr.length = g.inputIds.length)
    (hT : g.inputIds.length + 1 ≤ T) :
    nodePre (mkOp winit (assignInputs (g.outputs.map GNode.nid)
        (assignInputs g.inputIds [] 1).1 (assignInputs g.inputIds [] 1).2).1 g.outputs)
      (initRow g.inputIds.length T xr) k =
      ((((g.outputs.getD k default).inputs.map
          (fun inp => xr.getD (posOf inp g.inputIds) 0)).zip
        ((List.range ((g.outputs.getD k default).inputs).length).map
          (fun j => winit k j))).map (fun q => q.1 * q.2)).sum + 0 := by
  have hmem : g.outputs.getD k default ∈ g.outputs := by
    rw [List.getD_eq_getElem _ _ hk]
    exact List.getElem_mem hk
  have hinps : ∀ inp ∈ (g.outputs.getD k default).inputs, inp ∈ g.inputIds :=
    hIn _ hmem
  have hidxval : ∀ inp ∈ (g.outputs.getD k default).inputs,
      getIdx (assignInputs (g.outputs.map GNode.nid)
        (assignInputs g.inputIds [] 1).1 (assignInputs g.inputIds [] 1).2).1 inp =
      1 + posOf inp g.inputIds :=
    fun inp hinp => no_hidden_idx_input g hNodupIn hdisj inp (hinps inp hinp)
  have hnz : ∀ t ∈ (g.outputs.getD k default).inputs.map
      (getIdx (assignInputs (g.outputs.map GNode.nid)
        (assignInputs g.inputIds [] 1).1 (assignInputs g.inputIds [] 1).2).1), t ≠ 0 := by
    intro t ht
    rcases List.mem_map.mp ht with ⟨inp, hinp, he⟩
    rw [← he, hidxval inp hinp]
    omega
  have hAval : ((g.outputs.getD k default).inputs.map
      (getIdx (assignInputs (g.outputs.map GNode.nid)
        (assignInputs g.inputIds [] 1).1 (assignInputs g.inputIds [] 1).2).1)).map
      (fun t => (initRow g.inputIds.length T xr).getD t 0) =
      (g.outputs.getD k default).inputs.map
        (fun inp => xr.getD (posOf inp g.inputIds) 0) := by
    rw [List.map_map]
    refine List.map_congr_left (fun inp hinp => ?_)
    show (initRow g.inputIds.length T xr).getD
      (getIdx (assignInputs (g.outputs.map GNode.nid)
        (assignInputs g.inputIds [] 1).1 (assignInputs g.inputIds [] 1).2).1 inp) 0 = _
    rw [hidxval inp hinp, Nat.add_comm 1 (posOf inp g.inputIds),
      initRow_getD_input _ _ _ _ (posOf_lt_length _ _ (hinps inp hinp)) hxr hT]
  have hku : k < g.outputs.length := hk
  unfold nodePre
  rw [mkOp_inputIndices_getD _ _ _ _ hku, mkOp_weights_decomp _ _ _ _ hku hnz,
    List.map_append, sum_zip_append_padding _ _ _ _ (by simp), hAval,
    mkOp_bias_eq, getD_replicate_self]

lemma no_hidden_outIdx (g : Graph) (winit : Nat → Nat → ℚ)
    (hNodupOut : (g.outputs.map GNode.nid).Nodup) :
    (mkOp winit (assignInputs (g.outputs.map GNode.nid)
        (assignInputs g.inputIds [] 1).1 (assignInputs g.inputIds [] 1).2).1
      g.outputs).outputIndices =
      (List.range g.outputs.length).map
        (fun k => (assignInputs g.inputIds [] 1).2 + k) := by
  rw [mkOp_outputIndices_eq]
  refine List.ext_getElem (by simp) (fun k h1 h2 => ?_)
  rw [List.length_map] at h1
  have hkn : k < (g.outputs.map GNode.nid).length := by simpa using h1
  rw [List.getElem_map, List.getElem_map, List.getElem_range]
  have hmem : (g.outputs[k]).nid ∈ g.outputs.map GNode.nid :=
    List.mem_map.mpr ⟨g.outputs[k], List.getElem_mem h1, rfl⟩
  rw [assignInputs_getIdx_mem _ _ _ _ hNodupOut hmem]
  have hpe : posOf ((g.outputs.map GNode.nid).get ⟨k, hkn⟩) (g.outputs.map GNode.nid) =
      k := posOf_getElem (g.outputs.map GNode.nid) k hkn hNodupOut
  have hgm : (g.outputs.map GNode.nid).get ⟨k, hkn⟩ = (g.outputs[k]).nid := by
    rw [List.get_eq_getElem, List.getElem_map]
  rw [hgm] at hpe
  rw [hpe]

lemma forward_no_hidden (g : Graph) (winit : Nat → Nat → ℚ)
    (actMap : Nat → ℚ → ℚ) (xs : List (List ℚ))
    (hhid : g.hidden = []) (hne : g.outputs ≠ [])
    (hIn : ∀ nd ∈ g.outputs, ∀ inp ∈ nd.inputs, inp ∈ g.inputIds)
    (hNodupIn : g.inputIds.Nodup)
    (hNodupOut : (g.outputs.map GNode.nid).Nodup)
    (hdisj : ∀ nd ∈ g.outputs, nd.nid ∉ g.inputIds)
    (hsorted : sortOutputs g.outputs = g.outputs)
    (hx : ∀ xr ∈ xs, xr.length = g.inputIds.length) :
    ∃ mo : Model, constructModel g winit 2 = some mo ∧
      Model.forward actMap mo (PyInput.rank2 xs) = Except.ok
        (xs.map (fun xr => (List.range g.outputs.length).map (fun k =>
          specOutputValue actMap winit g.inputIds (g.outputs.getD k default) k xr))) := by
  have hcr := constructRun_no_hidden g winit hhid hne hIn
  refine ⟨mkModel g
    { tapeIdx := (assignInputs (g.outputs.map GNode.nid)
        (assignInputs g.inputIds [] 1).1 (assignInputs g.inputIds [] 1).2).1
      assigned := g.inputIds ++ g.outputs.map GNode.nid
      counter := (assignInputs g.inputIds [] 1).2 + g.outputs.length
      remaining := []
      ops := [mkOp winit (assignInputs (g.outputs.map GNode.nid)
        (assignInputs g.inputIds [] 1).1 (assignInputs g.inputIds [] 1).2).1 g.outputs]
      fails := some [] }, ?_, ?_⟩
  · unfold constructModel
    rw [hcr]
  · have houtchar := no_hidden_outIdx g winit hNodupOut
    have hc0 : (assignInputs g.inputIds [] 1).2 = 1 + g.inputIds.length :=
      assignInputs_counter g.inputIds [] 1
    have hnd : (mkOp winit (assignInputs (g.outputs.map GNode.nid)
        (assignInputs g.inputIds [] 1).1 (assignInputs g.inputIds [] 1).2).1
        g.outputs).outputIndices.Nodup := by
      rw [houtchar]
      exact List.Nodup.map (fun a b hab => by omega) (List.nodup_range _)
    show Except.ok ((runOps actMap
        [mkOp winit (assignInputs (g.outputs.map GNode.nid)
          (assignInputs g.inputIds [] 1).1 (assignInputs g.inputIds [] 1).2).1 g.outputs]
        (xs.map (initRow g.inputIds.length
          (g.inputIds.length + g.hidden.length + g.outputs.length + 1)))).map
        (fun row => ((sortOutputs g.outputs).map
          (fun nd => getIdx (assignInputs (g.outputs.map GNode.nid)
            (assignInputs g.inputIds [] 1).1 (assignInputs g.inputIds [] 1).2).1 nd.nid)).map
          (fun oi => row.getD oi 0))) = _
    rw [hsorted, ← mkOp_outputIndices_eq winit]
    have hrops : ∀ t, runOps actMap
        [mkOp winit (assignInputs (g.outputs.map GNode.nid)
          (assignInputs g.inputIds [] 1).1 (assignInputs g.inputIds [] 1).2).1 g.outputs] t =
        Op.forward actMap (mkOp winit (assignInputs (g.outputs.map GNode.nid)
          (assignInputs g.inputIds [] 1).1 (assignInputs g.inputIds [] 1).2).1 g.outputs) t :=
      fun t => rfl
    rw [hrops]
    congr 1
    refine List.ext_getElem ?_ ?_
    · rw [List.length_map, forward_length, List.length_map, List.length_map]
    · intro b hb1 hb2
      rw [List.length_map, forward_length, List.length_map] at hb1
      rw [List.length_map] at hb2
      rw [List.getElem_map, List.getElem_map]
      refine List.ext_getElem ?_ ?_
      · rw [List.length_map, mkOp_outputIndices_length, List.length_map,
          List.length_range]
      · intro k hk1 hk2
        rw [List.length_map, mkOp_outputIndices_length] at hk1
        rw [List.length_map, List.length_range] at hk2
        rw [List.getElem_map, List.getElem_map, List.getElem_range]
        have hb0 : b < (xs.map (initRow g.inputIds.length
            (g.inputIds.length + g.hidden.length + g.outputs.length + 1))).length := by
          rw [List.length_map]
          exact hb1
        have hout : ∀ o ∈ (mkOp winit (assignInputs (g.outputs.map GNode.nid)
            (assignInputs g.inputIds [] 1).1 (assignInputs g.inputIds [] 1).2).1
            g.outputs).outputIndices,
            o < (((xs.map (initRow g.inputIds.length
              (g.inputIds.length + g.hidden.length + g.outputs.length + 1))).getD
                b []).length) := by
          intro o ho
          rw [houtchar] at ho
          rcases List.mem_map.mp ho with ⟨j, hj, he⟩
          rw [List.mem_range] at hj
          rw [getD_map_lt _ _ _ _ hb1, initRow_length]
          omega
        have hval := op_forward_value actMap winit
          (assignInputs (g.outputs.map GNode.nid)
            (assignInputs g.inputIds [] 1).1 (assignInputs g.inputIds [] 1).2).1
          g.outputs
          (xs.map (initRow g.inputIds.length
            (g.inputIds.length + g.hidden.length + g.outputs.length + 1)))
          b k hb0 hk2 hnd hout
        have hforw : b < (Op.forward actMap
            (mkOp winit (assignInputs (g.outputs.map GNode.nid)
              (assignInputs g.inputIds [] 1).1 (assignInputs g.inputIds [] 1).2).1
              g.outputs)
            (xs.map (initRow g.inputIds.length
              (g.inputIds.length + g.hidden.length + g.outputs.length + 1)))).length := by
          rw [forward_length, List.length_map]
          exact hb1
        have hkk : k < (mkOp winit (assignInputs (g.outputs.map GNode.nid)
            (assignInputs g.inputIds [] 1).1 (assignInputs g.inputIds [] 1).2).1
            g.outputs).outputIndices.length := by
          rw [mkOp_outputIndices_length]
          exact hk2
        rw [List.getD_eq_getElem _ _ hforw, List.getD_eq_getElem _ _ hkk] at hval
        rw [hval]
        have htape : (xs.map (initRow g.inputIds.length
            (g.inputIds.length + g.hidden.length + g.outputs.length + 1))).getD b [] =
            initRow g.inputIds.length
              (g.inputIds.length + g.hidden.length + g.outputs.length + 1)
              (xs.getD b []) := by
          rw [getD_map_lt _ _ _ _ hb1, List.getD_eq_getElem _ _ hb1]
        rw [htape, no_hidden_nodePre g winit (xs.getD b [])
          (g.inputIds.length + g.hidden.length + g.outputs.length + 1) k hk2
          hNodupIn hdisj hIn
          (by
            refine hx _ ?_
            rw [List.getD_eq_getElem _ _ hb1]
            exact List.getElem_mem hb1)
          (by omega)]
        unfold specOutputValue
        rw [List.getD_eq_getElem _ _ hb1]

/-! ## Claim theorems -/

/-- Claim C1: the spec's invariant — after `Model.construct`, every node's tape
index is unique and strictly greater than those of its transitive inputs — is
violated by the code on `bigG`: the grouping rollback decrements the shared
counter for the deferred nodes while node 4 keeps the index assigned between
them, so in the next round node 2 is re-assigned node 4's index (both end at
tape index 4), and node 1 (a direct consumer of node 4) ends at tape index 3,
strictly below its input's index 4. -/
theorem c1_tape_index_invariant_violated :
    (constructRun bigG zeroInit 10).isDone = true ∧
    gnode 1 [4] "any" ∈ bigG.hidden ∧
    gnode 2 [0] "g" ∈ bigG.hidden ∧
    gnode 4 [0] "any" ∈ bigG.hidden ∧
    (4 : Nat) ∈ (gnode 1 [4] "any").inputs ∧
    getIdx (constructRun bigG zeroInit 10).state.tapeIdx 4 = 4 ∧
    getIdx (constructRun bigG zeroInit 10).state.tapeIdx 2 = 4 ∧
    getIdx (constructRun bigG zeroInit 10).state.tapeIdx 1 = 3 := by
  decide

/-- Claim C2: atomic grouping is violated by the code on `splitG`: nodes 1 and
3 share tag `"g"`, yet the first compiled Operation Batch contains node 1 (with
the untagged node 2) and not node 3, because `fails` is re-bound to `[]` on
every iteration of the check loop and the last candidate checked is untagged. -/
theorem c2_atomic_grouping_violated :
    (constructRun splitG zeroInit 10).isDone = true ∧
    (constructRun splitG zeroInit 10).state.ops.map (fun op => op.nodes.map GNode.nid) =
      [[1, 2], [3, 4]] ∧
    (idNodeMap (splitG.hidden ++ splitG.outputs) "g").map GNode.nid = [1, 3] := by
  decide

/-- Claim C4: `smallG` is acyclic and its single grouping (nodes 1 and 3,
tag `"g"`) is satisfiable — finalize node 2 first, then nodes 1 and 3 together
— yet the compiler loop never terminates on it: node 1 is finalized alone in
round one (see C2), after which the tag check fails in every later round
because node 1 is never again in the candidate set, so node 3 is deferred
forever and the remaining-node set never empties. -/
theorem c4_nontermination_on_satisfiable_graph :
    ∀ (winit : Nat → Nat → ℚ) (fuel : Nat),
      (constructRun smallG winit fuel).isDone = false := by
  intro winit fuel
  match fuel with
  | 0 => rfl
  | 1 => rfl
  | n + 2 =>
    have h2 : constructRun smallG winit (n + 2) =
        runLoop winit (smallG.hidden ++ smallG.outputs) n
          ((constructRun smallG winit 2).state) := rfl
    rw [h2, runLoop_fix winit _ _ (smallG_mid_fix winit)
      (by rw [smallG_mid_remaining]; simp) n]
    rfl

/-- Claim C5: `Op.forward` writes only at the op's output tape indices — every
other tape position reads the same after the call — and the call leaves the
op's weights and bias unchanged. -/
theorem c5_forward_frame (actMap : Nat → ℚ → ℚ) (op : Op) (tape : List (List ℚ))
    (b j : Nat) (h : j ∉ op.outputIndices) :
    ((Op.forward actMap op tape).getD b []).getD j 0 = (tape.getD b []).getD j 0 ∧
    (Op.forwardCall actMap op tape).1.weights = op.weights ∧
    (Op.forwardCall actMap op tape).1.bias = op.bias :=
  ⟨forward_getD_frame actMap op tape b j h, rfl, rfl⟩

/-- Witness for C5 on a concrete op and tape: position 1 is not among the
output indices and keeps its value 7. -/
theorem c5_forward_frame_witness :
    (1 : Nat) ∉ (mkOp zeroInit [(5, 1)] [gnode 9 [5] "any"]).outputIndices ∧
    ((Op.forward idAct (mkOp zeroInit [(5, 1)] [gnode 9 [5] "any"]) [[3, 7]]).getD 0 []).getD 1 0 =
      (([[3, 7]] : List (List ℚ)).getD 0 []).getD 1 0 ∧
    (Op.forwardCall idAct (mkOp zeroInit [(5, 1)] [gnode 9 [5] "any"]) [[3, 7]]).1.weights =
      (mkOp zeroInit [(5, 1)] [gnode 9 [5] "any"]).weights ∧
    (Op.forwardCall idAct (mkOp zeroInit [(5, 1)] [gnode 9 [5] "any"]) [[3, 7]]).1.bias =
      (mkOp zeroInit [(5, 1)] [gnode 9 [5] "any"]).bias :=
  ⟨by decide, c5_forward_frame idAct (mkOp zeroInit [(5, 1)] [gnode 9 [5] "any"])
    [[3, 7]] 0 1 (by decide)⟩

/-- Claim C6: every weight at a padded position (an input slot at or beyond the
node's real input count, whose index entry is the padding index 0) is zero
after construction, and such a slot contributes exactly zero to the node's
weighted sum whatever value (`garbage`) is gathered there. -/
theorem c6_padding_contributes_zero (winit : Nat → Nat → ℚ)
    (tapeIdx : List (Nat × Nat)) (nodes : List GNode) (k j : Nat)
    (h : ((nodes.getD k default).inputs).length ≤ j) :
    ((mkOp winit tapeIdx nodes).inputIndices.getD k []).getD j 0 = 0 ∧
    ((mkOp winit tapeIdx nodes).weights.getD k []).getD j 0 = 0 ∧
    ∀ garbage : ℚ, ((mkOp winit tapeIdx nodes).weights.getD k []).getD j 0 * garbage = 0 := by
  have h1 := mkOp_padded_getD_zero winit tapeIdx nodes k j h
  have h2 := mkOp_weights_getD_zero winit tapeIdx nodes k j h1
  exact ⟨h1, h2, fun g => by rw [h2, zero_mul]⟩

/-- Witness for C6: in a two-node batch where node 9 has one real input and
node 8 has two, node 9's second slot is padded: its index entry and weight are
zero and it contributes zero. -/
theorem c6_padding_contributes_zero_witness :
    ((([gnode 9 [5] "any", gnode 8 [5, 6] "any"] : List GNode).getD 0 default).inputs).length ≤ 1 ∧
    (((mkOp halfInit [(5, 1), (6, 2)] [gnode 9 [5] "any", gnode 8 [5, 6] "any"]).inputIndices.getD 0 []).getD 1 0 = 0 ∧
    ((mkOp halfInit [(5, 1), (6, 2)] [gnode 9 [5] "any", gnode 8 [5, 6] "any"]).weights.getD 0 []).getD 1 0 = 0 ∧
    ∀ garbage : ℚ,
      ((mkOp halfInit [(5, 1), (6, 2)] [gnode 9 [5] "any", gnode 8 [5, 6] "any"]).weights.getD 0 []).getD 1 0 * garbage = 0) :=
  ⟨by decide, c6_padding_contributes_zero halfInit [(5, 1), (6, 2)]
    [gnode 9 [5] "any", gnode 8 [5, 6] "any"] 0 1 (by decide)⟩

/-- Claim C9: calling `fit` before `compile` has set an optimizer fails
immediately with the configuration `RuntimeError` raised before anything else
in the method body, so the model — weights, biases and cached state — is
returned exactly as it was and no tape is touched. -/
theorem c9_fit_before_compile
    (train : Model → List (List ℚ) → List (List ℚ) → Nat → Nat → Model)
    (m : Model) (X y : List (List ℚ)) (epochs batchSize : Nat)
    (h : m.optimizer = none) :
    Model.fit train m X y epochs batchSize =
      (some "Compile model first before calling fit()", m) :=
  fit_unconfigured train m X y epochs batchSize h

/-- Witness for C9 on a concrete unconfigured model. -/
theorem c9_fit_before_compile_witness :
    modelA.optimizer = none ∧
    Model.fit trivialTrain modelA [[1]] [[1]] 1 32 =
      (some "Compile model first before calling fit()", modelA) :=
  ⟨rfl, c9_fit_before_compile trivialTrain modelA [[1]] [[1]] 1 32 rfl⟩

/-- Claim C10: `compile` with an optimizer name outside adam/sgd raises
nothing and leaves `optimizer` at `None` (likewise `loss_function` for a loss
name outside mse/crossentropy), so a subsequent `fit` still raises the
configuration `RuntimeError`. -/
theorem c10_compile_unknown_names_silent (m : Model) (opt loss : String)
    (train : Model → List (List ℚ) → List (List ℚ) → Nat → Nat → Model)
    (X y : List (List ℚ)) (epochs batchSize : Nat)
    (h1 : opt ≠ "adam") (h2 : opt ≠ "sgd") (hm : m.optimizer = none) :
    (Model.compile m opt loss).optimizer = none ∧
    (loss ≠ "mse" → loss ≠ "crossentropy" →
      (Model.compile m opt loss).lossFunction = m.lossFunction) ∧
    Model.fit train (Model.compile m opt loss) X y epochs batchSize =
      (some "Compile model first before calling fit()", Model.compile m opt loss) := by
  have hopt : (Model.compile m opt loss).optimizer = none := by
    rw [compile_unknown_optimizer m opt loss h1 h2]
    exact hm
  refine ⟨hopt, ?_, fit_unconfigured train _ X y epochs batchSize hopt⟩
  intro hl1 hl2
  unfold Model.compile
  rw [if_neg h1, if_neg h2, if_neg hl1, if_neg hl2]

/-- Witness for C10 with the unrecognized names `"rmsprop"` / `"mae"`. -/
theorem c10_compile_unknown_names_silent_witness :
    ("rmsprop" ≠ "adam") ∧ ("rmsprop" ≠ "sgd") ∧ modelA.optimizer = none ∧
    ((Model.compile modelA "rmsprop" "mae").optimizer = none ∧
    ("mae" ≠ "mse" → "mae" ≠ "crossentropy" →
      (Model.compile modelA "rmsprop" "mae").lossFunction = modelA.lossFunction) ∧
    Model.fit trivialTrain (Model.compile modelA "rmsprop" "mae") [[1]] [[1]] 1 32 =
      (some "Compile model first before calling fit()",
        Model.compile modelA "rmsprop" "mae")) :=
  ⟨by decide, by decide, rfl,
    c10_compile_unknown_names_silent modelA "rmsprop" "mae" trivialTrain
      [[1]] [[1]] 1 32 (by decide) (by decide) rfl⟩

/-- Claim C7: tape index 0 stays 0 throughout every forward pass of a
constructed model: no tape index recorded by the compiler is 0, no compiled
Operation Batch has 0 among its output indices, the seeded tape has 0 at
position 0 and at every position beyond the input block `1..input_size`, and
column 0 of the tape is 0 after every prefix of the compiled op sequence. -/
theorem c7_tape_index_zero_reserved (g : Graph) (winit : Nat → Nat → ℚ)
    (fuel : Nat) (s : CState) (actMap : Nat → ℚ → ℚ) (xs : List (List ℚ))
    (hdone : constructRun g winit fuel = RunResult.done s) :
    (∀ p ∈ s.tapeIdx, 1 ≤ p.2) ∧
    (∀ op ∈ (mkModel g s).ops, (0 : Nat) ∉ op.outputIndices) ∧
    (∀ xr : List ℚ, ∀ j : Nat, j = 0 ∨ (mkModel g s).inputSize < j →
      (initRow (mkModel g s).inputSize (mkModel g s).tapeSize xr).getD j 0 = 0) ∧
    (∀ k b : Nat,
      ((runOps actMap ((mkModel g s).ops.take k)
        (xs.map (initRow (mkModel g s).inputSize (mkModel g s).tapeSize))).getD
          b []).getD 0 0 = 0) := by
  obtain ⟨h1, h2, h3⟩ := construct_done_inv g winit fuel s hdone
  have hops0 : ∀ op ∈ (mkModel g s).ops, (0 : Nat) ∉ op.outputIndices := by
    intro op hop hmem
    have := h3 op hop 0 hmem
    omega
  refine ⟨h2, hops0, fun xr j hj => initRow_getD_zero _ _ _ _ hj, ?_⟩
  intro k b
  refine runOps_col_zero actMap ((mkModel g s).ops.take k) _
    (fun op hop => hops0 op (List.take_subset k _ hop)) (fun b2 => ?_) b
  by_cases hb : b2 < xs.length
  · rw [getD_map_lt _ _ _ _ hb]
    exact initRow_getD_zero _ _ _ _ (Or.inl rfl)
  · have h0 : (xs.map (initRow (mkModel g s).inputSize (mkModel g s).tapeSize)).getD
        b2 [] = [] :=
      getD_out_of_bounds _ _ _ (by simpa using Nat.le_of_not_lt hb)
    rw [h0]
    rfl

/-- Witness for C7: the constructed two-input one-output model of `pairG`,
evaluated on the batch `[[1, 2]]`. -/
theorem c7_tape_index_zero_reserved_witness :
    constructRun pairG halfInit 2 =
      RunResult.done ((constructRun pairG halfInit 2).state) ∧
    ((∀ p ∈ ((constructRun pairG halfInit 2).state).tapeIdx, 1 ≤ p.2) ∧
    (∀ op ∈ (mkModel pairG ((constructRun pairG halfInit 2).state)).ops,
      (0 : Nat) ∉ op.outputIndices) ∧
    (∀ xr : List ℚ, ∀ j : Nat,
      j = 0 ∨ (mkModel pairG ((constructRun pairG halfInit 2).state)).inputSize < j →
      (initRow (mkModel pairG ((constructRun pairG halfInit 2).state)).inputSize
        (mkModel pairG ((constructRun pairG halfInit 2).state)).tapeSize xr).getD j 0 = 0) ∧
    (∀ k b : Nat,
      ((runOps idAct ((mkModel pairG ((constructRun pairG halfInit 2).state)).ops.take k)
        (([[1, 2]] : List (List ℚ)).map
          (initRow (mkModel pairG ((constructRun pairG halfInit 2).state)).inputSize
            (mkModel pairG ((constructRun pairG halfInit 2).state)).tapeSize))).getD
          b []).getD 0 0 = 0)) :=
  ⟨rfl, c7_tape_index_zero_reserved pairG halfInit 2
    ((constructRun pairG halfInit 2).state) idAct [[1, 2]] rfl⟩

/-- Claim C8: `Model.forward` accepts a 2-D batch or promotes a 1-D sample to
a batch of one, raises the rank assertion on rank 0 and on rank 3 or higher,
and on success returns one row per sample with one entry per declared output. -/
theorem c8_forward_rank_contract (g : Graph) (winit : Nat → Nat → ℚ)
    (fuel : Nat) (s : CState) (actMap : Nat → ℚ → ℚ)
    (hdone : constructRun g winit fuel = RunResult.done s) :
    (∀ v : ℚ, Model.forward actMap (mkModel g s) (PyInput.rank0 v) =
      Except.error "Input must be flattened batches (2D)") ∧
    (∀ r : Nat, Model.forward actMap (mkModel g s) (PyInput.rankHigher r) =
      Except.error "Input must be flattened batches (2D)") ∧
    (∀ v : List ℚ, ∃ out, Model.forward actMap (mkModel g s) (PyInput.rank1 v) =
      Except.ok out ∧ out.length = 1 ∧ ∀ row ∈ out, row.length = g.outputs.length) ∧
    (∀ xs : List (List ℚ), ∃ out,
      Model.forward actMap (mkModel g s) (PyInput.rank2 xs) = Except.ok out ∧
      out.length = xs.length ∧ ∀ row ∈ out, row.length = g.outputs.length) := by
  refine ⟨fun v => rfl, fun r => rfl, fun v => ?_, fun xs => ?_⟩
  · refine ⟨runForward actMap (mkModel g s) [v], rfl, by rw [runForward_length]; rfl, ?_⟩
    intro row hrow
    rw [runForward_row_length actMap (mkModel g s) [v] row hrow,
      mkModel_outputIndices_length]
  · refine ⟨runForward actMap (mkModel g s) xs, rfl, by rw [runForward_length], ?_⟩
    intro row hrow
    rw [runForward_row_length actMap (mkModel g s) xs row hrow,
      mkModel_outputIndices_length]

/-- Witness for C8 on the constructed model of `pairG`. -/
theorem c8_forward_rank_contract_witness :
    constructRun pairG halfInit 2 =
      RunResult.done ((constructRun pairG halfInit 2).state) ∧
    ((∀ v : ℚ, Model.forward idAct
        (mkModel pairG ((constructRun pairG halfInit 2).state)) (PyInput.rank0 v) =
      Except.error "Input must be flattened batches (2D)") ∧
    (∀ r : Nat, Model.forward idAct
        (mkModel pairG ((constructRun pairG halfInit 2).state)) (PyInput.rankHigher r) =
      Except.error "Input must be flattened batches (2D)") ∧
    (∀ v : List ℚ, ∃ out, Model.forward idAct
        (mkModel pairG ((constructRun pairG halfInit 2).state)) (PyInput.rank1 v) =
      Except.ok out ∧ out.length = 1 ∧ ∀ row ∈ out, row.length = pairG.outputs.length) ∧
    (∀ xs : List (List ℚ), ∃ out, Model.forward idAct
        (mkModel pairG ((constructRun pairG halfInit 2).state)) (PyInput.rank2 xs) =
      Except.ok out ∧ out.length = xs.length ∧
        ∀ row ∈ out, row.length = pairG.outputs.length)) :=
  ⟨rfl, c8_forward_rank_contract pairG halfInit 2
    ((constructRun pairG halfInit 2).state) idAct rfl⟩

/-- Claim C3: `Op.forward` writes, at each node's tape index, the node's
activation applied to the weighted sum of the gathered input values plus the
node's bias (`nodePre`), with each batch row's own declared activation; and
for a model with zero hidden nodes, `Model.forward` reduces to applying each
output node's activation to the weighted sum of the raw inputs plus the
(zero-initialized) bias (`specOutputValue`). -/
theorem c3_forward_formula :
    (∀ (actMap : Nat → ℚ → ℚ) (winit : Nat → Nat → ℚ)
      (tapeIdx : List (Nat × Nat)) (nodes : List GNode)
      (tape : List (List ℚ)) (b k : Nat),
      b < tape.length → k < nodes.length →
      (mkOp winit tapeIdx nodes).outputIndices.Nodup →
      (∀ o ∈ (mkOp winit tapeIdx nodes).outputIndices, o < (tape.getD b []).length) →
      ((Op.forward actMap (mkOp winit tapeIdx nodes) tape).getD b []).getD
          ((mkOp winit tapeIdx nodes).outputIndices.getD k 0) 0 =
        actMap ((nodes.getD k default).activation)
          (nodePre (mkOp winit tapeIdx nodes) (tape.getD b []) k)) ∧
    (∀ (g : Graph) (winit : Nat → Nat → ℚ) (actMap : Nat → ℚ → ℚ)
      (xs : List (List ℚ)),
      g.hidden = [] → g.outputs ≠ [] →
      (∀ nd ∈ g.outputs, ∀ inp ∈ nd.inputs, inp ∈ g.inputIds) →
      g.inputIds.Nodup → (g.outputs.map GNode.nid).Nodup →
      (∀ nd ∈ g.outputs, nd.nid ∉ g.inputIds) →
      sortOutputs g.outputs = g.outputs →
      (∀ xr ∈ xs, xr.length = g.inputIds.length) →
      ∃ mo : Model, constructModel g winit 2 = some mo ∧
        Model.forward actMap mo (PyInput.rank2 xs) = Except.ok
          (xs.map (fun xr => (List.range g.outputs.length).map (fun k =>
            specOutputValue actMap winit g.inputIds (g.outputs.getD k default) k xr)))) :=
  ⟨fun actMap winit tapeIdx nodes tape b k hb hk hnd hout =>
      op_forward_value actMap winit tapeIdx nodes tape b k hb hk hnd hout,
    fun g winit actMap xs hhid hne hIn hNodupIn hNodupOut hdisj hsorted hx =>
      forward_no_hidden g winit actMap xs hhid hne hIn hNodupIn hNodupOut
        hdisj hsorted hx⟩

/-- Witness for C3: a concrete one-node batch on a concrete tape, and the
spec's zero-hidden hand example `pairG` with weights `[1/2, -1/2]` on the
batch `[[1, 2]]`. -/
theorem c3_forward_formula_witness :
    ((0 : Nat) < ([[0, 3, 5, 0]] : List (List ℚ)).length ∧
      (0 : Nat) < ([gnode 2 [0, 1] "any"] : List GNode).length ∧
      (mkOp halfInit [(0, 1), (1, 2), (2, 3)] [gnode 2 [0, 1] "any"]).outputIndices.Nodup ∧
      (∀ o ∈ (mkOp halfInit [(0, 1), (1, 2), (2, 3)] [gnode 2 [0, 1] "any"]).outputIndices,
        o < ((([[0, 3, 5, 0]] : List (List ℚ)).getD 0 []).length)) ∧
      ((Op.forward idAct (mkOp halfInit [(0, 1), (1, 2), (2, 3)] [gnode 2 [0, 1] "any"])
          [[0, 3, 5, 0]]).getD 0 []).getD
          ((mkOp halfInit [(0, 1), (1, 2), (2, 3)] [gnode 2 [0, 1] "any"]).outputIndices.getD 0 0) 0 =
        idAct ((([gnode 2 [0, 1] "any"] : List GNode).getD 0 default).activation)
          (nodePre (mkOp halfInit [(0, 1), (1, 2), (2, 3)] [gnode 2 [0, 1] "any"])
            (([[0, 3, 5, 0]] : List (List ℚ)).getD 0 []) 0)) ∧
    (pairG.hidden = [] ∧ pairG.outputs ≠ [] ∧
      sortOutputs pairG.outputs = pairG.outputs ∧
      ∃ mo : Model, constructModel pairG halfInit 2 = some mo ∧
        Model.forward idAct mo (PyInput.rank2 [[1, 2]]) = Except.ok
          (([[1, 2]] : List (List ℚ)).map (fun xr =>
            (List.range pairG.outputs.length).map (fun k =>
              specOutputValue idAct halfInit pairG.inputIds
                (pairG.outputs.getD k default) k xr)))) :=
  ⟨⟨by decide, by decide, by decide, by decide,
    c3_forward_formula.1 idAct halfInit [(0, 1), (1, 2), (2, 3)]
      [gnode 2 [0, 1] "any"] [[0, 3, 5, 0]] 0 0 (by decide) (by decide)
      (by decide) (by decide)⟩,
   ⟨rfl, by decide, by decide,
    c3_forward_formula.2 pairG halfInit idAct [[1, 2]] rfl (by decide)
      (by decide) (by decide) (by decide) (by decide) (by decide)
      (fun xr hxr => by
        rw [List.mem_singleton] at hxr
        rw [hxr]
        rfl)⟩⟩

end Freewire
